import Mathlib

/-!
A verification development for the annotation-to-schema compiler of
`sequelize-swagger-generator` (src/lib/swagger.js together with its helper
module).  JavaScript runtime values are modelled by the inductive `Json`
below; the source's functions are translated one-to-one into executable
Lean definitions, and the spec's claims are settled as theorems about
those definitions.
-/

namespace Swagger

/-- Model of a JavaScript runtime value as it occurs in this program:
strings, numbers (JS numbers restricted to the finite values that arise
here, as rationals, with `nan` a separate marker), booleans, `null`,
`undefined`, arrays, and plain objects.  An object is an insertion-ordered
association list of string keys, mirroring JS own-property order;
JS objects never hold a duplicate key, which sites that need it state as a
`nodup` hypothesis. -/
inductive Json where
  | str (s : String)
  | num (q : Rat)
  | nan
  | bool (b : Bool)
  | null
  | undef
  | arr (elems : List Json)
  | obj (fields : List (String × Json))
deriving Repr

mutual

/-- Structural boolean equality on `Json` (deriving `DecidableEq` is not
available for this nested inductive, so it is built by hand). -/
def beqJson : Json → Json → Bool
  | .str a, .str b => a = b
  | .num a, .num b => a = b
  | .nan, .nan => true
  | .bool a, .bool b => a = b
  | .null, .null => true
  | .undef, .undef => true
  | .arr xs, .arr ys => beqJsonList xs ys
  | .obj fs, .obj gs => beqJsonFields fs gs
  | _, _ => false

/-- Elementwise `beqJson` on lists. -/
def beqJsonList : List Json → List Json → Bool
  | [], [] => true
  | a :: as, b :: bs => beqJson a b && beqJsonList as bs
  | _, _ => false

/-- Elementwise `beqJson` on association lists. -/
def beqJsonFields : List (String × Json) → List (String × Json) → Bool
  | [], [] => true
  | (k, v) :: as, (l, w) :: bs => k = l && beqJson v w && beqJsonFields as bs
  | _, _ => false

end

mutual

theorem eq_of_beqJson : ∀ {a b : Json}, beqJson a b = true → a = b
  | .str _, .str _, h => by simpa [beqJson] using congrArg Json.str (by simpa [beqJson] using h)
  | .num _, .num _, h => by simpa [beqJson] using congrArg Json.num (by simpa [beqJson] using h)
  | .nan, .nan, _ => rfl
  | .bool _, .bool _, h => by simpa [beqJson] using congrArg Json.bool (by simpa [beqJson] using h)
  | .null, .null, _ => rfl
  | .undef, .undef, _ => rfl
  | .arr xs, .arr ys, h => congrArg Json.arr (eq_of_beqJsonList (by simpa [beqJson] using h))
  | .obj fs, .obj gs, h => congrArg Json.obj (eq_of_beqJsonFields (by simpa [beqJson] using h))

theorem eq_of_beqJsonList : ∀ {as bs : List Json}, beqJsonList as bs = true → as = bs
  | [], [], _ => rfl
  | a :: as, b :: bs, h => by
    have h2 : beqJson a b = true ∧ beqJsonList as bs = true := by
      simpa [beqJsonList, Bool.and_eq_true] using h
    exact List.cons_eq_cons.mpr ⟨eq_of_beqJson h2.1, eq_of_beqJsonList h2.2⟩

theorem eq_of_beqJsonFields :
    ∀ {as bs : List (String × Json)}, beqJsonFields as bs = true → as = bs
  | [], [], _ => rfl
  | (k, v) :: as, (l, w) :: bs, h => by
    have h2 : (k = l ∧ beqJson v w = true) ∧ beqJsonFields as bs = true := by
      simpa [beqJsonFields, Bool.and_eq_true, decide_eq_true_eq, and_assoc] using h
    have hv : v = w := eq_of_beqJson h2.1.2
    have ht : as = bs := eq_of_beqJsonFields h2.2
    simp [h2.1.1, hv, ht]

end

mutual

theorem beqJson_rfl : ∀ a : Json, beqJson a a = true
  | .str _ => by simp [beqJson]
  | .num _ => by simp [beqJson]
  | .nan => rfl
  | .bool _ => by simp [beqJson]
  | .null => rfl
  | .undef => rfl
  | .arr xs => by simpa [beqJson] using beqJsonList_rfl xs
  | .obj fs => by simpa [beqJson] using beqJsonFields_rfl fs

theorem beqJsonList_rfl : ∀ as : List Json, beqJsonList as as = true
  | [] => rfl
  | a :: as => by simp [beqJsonList, beqJson_rfl a, beqJsonList_rfl as]

theorem beqJsonFields_rfl : ∀ as : List (String × Json), beqJsonFields as as = true
  | [] => rfl
  | (k, v) :: as => by simp [beqJsonFields, beqJson_rfl v, beqJsonFields_rfl as]

end

instance : DecidableEq Json := fun a b =>
  if h : beqJson a b = true then .isTrue (eq_of_beqJson h)
  else .isFalse (fun he => h (he ▸ beqJson_rfl a))

deriving instance DecidableEq for Except

/-! ## JavaScript object primitives -/

/-- Property read on an association list (JS `fields[k]`, `undefined`
modelled as `none`); first occurrence wins, as for a real JS object, whose
keys are unique. -/
def jsGet (fields : List (String × Json)) (k : String) : Option Json :=
  fields.lookup k

/-- JS property write `fields[k] = v`: an existing key keeps its position
and is overwritten, a new key is appended. -/
def jsSet (fields : List (String × Json)) (k : String) (v : Json) :
    List (String × Json) :=
  if (jsGet fields k).isSome then
    fields.map (fun p => if p.1 = k then (p.1, v) else p)
  else
    fields ++ [(k, v)]

/-- JS `typeof fields[k] !== 'undefined'` for a plain object: note that a
key explicitly holding the value `undefined` also fails this test. -/
def jsHasDefined (fields : List (String × Json)) (k : String) : Bool :=
  match jsGet fields k with
  | some .undef => false
  | some _ => true
  | none => false

/-- Property read through a `Json` value: `v[k]` is `undefined` when `v`
is not an object (unmodelled corner: string index properties). -/
def Json.get? : Json → String → Option Json
  | .obj fs, k => jsGet fs k
  | _, _ => none

/-- JS truthiness of a value (`NaN`, `0`, `""`, `null`, `undefined` and
`false` are falsy; objects and arrays, even empty, are truthy). -/
def jsTruthy : Json → Bool
  | .str s => s ≠ ""
  | .num q => q ≠ 0
  | .nan => false
  | .bool b => b
  | .null => false
  | .undef => false
  | .arr _ => true
  | .obj _ => true

/-- The own enumerable properties contributed by `{...v}` (object
spread): an object contributes its fields, a string its characters keyed
by index, an array its elements keyed by index, and every other value
nothing. -/
def spreadFields : Json → List (String × Json)
  | .obj fs => fs
  | .str s => (s.data.enum.map (fun p => (toString p.1, Json.str (String.mk [p.2]))))
  | .arr xs => (xs.enum.map (fun p => (toString p.1, p.2)))
  | _ => []

/-- Sequential JS assignment of several properties (the tail of an object
literal `{...base, k1: v1, ...}`). -/
def jsSetMany (base : List (String × Json)) (upd : List (String × Json)) :
    List (String × Json) :=
  upd.foldl (fun acc p => jsSet acc p.1 p.2) base

/-! ## JavaScript string primitives

The core `String` API of Lean uses well-founded recursion that the kernel
will not unfold, so every string operation used by the embedding is
re-implemented structurally over `List Char`. -/

/-- JS `\s` whitespace class, restricted to the ASCII whitespace that can
occur in annotation text. -/
def isJsWs (c : Char) : Bool :=
  c = ' ' || c = '\t' || c = '\n' || c = '\r' || c = Char.ofNat 11 || c = Char.ofNat 12

/-- Split a character list at every occurrence of a separator character
(JS `String.prototype.split` with a one-character separator: keeps empty
pieces, yields at least one piece). -/
def splitCh (sep : Char) : List Char → List (List Char)
  | [] => [[]]
  | c :: rest =>
    if c = sep then [] :: splitCh sep rest
    else match splitCh sep rest with
      | [] => [[c]]
      | s :: ss => (c :: s) :: ss

/-- JS `s.split(sep)` for a one-character string separator. -/
def jsSplit (sep : Char) (s : String) : List String :=
  (splitCh sep s.data).map (fun cs => String.mk cs)

/-- JS `String.prototype.trim` on a character list. -/
def trimChars (cs : List Char) : List Char :=
  ((cs.dropWhile (fun c => isJsWs c)).reverse.dropWhile (fun c => isJsWs c)).reverse

/-- JS `s.trim()`. -/
def jsTrim (s : String) : String :=
  String.mk (trimChars s.data)

/-- JS `s.toLowerCase()` (ASCII range; annotation HTTP verbs are ASCII). -/
def jsToLower (s : String) : String :=
  String.mk (s.data.map Char.toLower)

/-- Replace the first occurrence of a pattern in a character list,
JS `s.replace(pat, repl)` with string arguments (first occurrence only).
An empty pattern matches at the start, as in JS. -/
def replaceFirst (pat repl : List Char) : List Char → List Char
  | [] => if pat.isEmpty then repl else []
  | c :: rest =>
    if List.isPrefixOf pat (c :: rest) then repl ++ (c :: rest).drop pat.length
    else c :: replaceFirst pat repl rest

/-- JS `s.replace(pat, repl)` with plain-string arguments. -/
def jsReplaceFirst (pat repl s : String) : String :=
  String.mk (replaceFirst pat.data repl.data s.data)

/-- JS `s.replace(/pat/g, repl)` for a one-character pattern: replace
every occurrence. -/
def jsReplaceAllChar (pat : Char) (repl : Char) (s : String) : String :=
  String.mk (s.data.map (fun c => if c = pat then repl else c))

/-! ## JavaScript number coercion -/

/-- Numeric value of a digit run (computed in `Nat` so that concrete
values reduce without rational normalization). -/
def digitsVal (ds : List Char) : Nat :=
  ds.foldl (fun a c => a * 10 + (c.toNat - 48)) 0

/-- Parse an optionally signed decimal literal (`-12`, `3.5`, `.5`,
`7.`); anything else is `none`.  Exponent, hexadecimal and `Infinity`
forms of the JS `Number` grammar do not occur in this program's inputs
and are unmodelled (they would coerce to `nan` here). -/
def parseDecimal (cs : List Char) : Option Rat :=
  let signed : Bool × List Char :=
    match cs with
    | '-' :: r => (true, r)
    | '+' :: r => (false, r)
    | r => (false, r)
  let intPart := signed.2.takeWhile (fun c => c.isDigit)
  let rest1 := signed.2.dropWhile (fun c => c.isDigit)
  let withSign : Rat → Rat := fun q => if signed.1 then -q else q
  match rest1 with
  | [] => if intPart.isEmpty then none else some (withSign (digitsVal intPart : Nat))
  | '.' :: r2 =>
    let fracPart := r2.takeWhile (fun c => c.isDigit)
    let rest2 := r2.dropWhile (fun c => c.isDigit)
    if !rest2.isEmpty then none
    else if intPart.isEmpty && fracPart.isEmpty then none
    else some (withSign
      ((digitsVal intPart : Nat) + (digitsVal fracPart : Nat) / ((10 : Rat) ^ fracPart.length)))
  | _ => none

/-- JS `new Number(value).valueOf()` on a string-or-`undefined` value:
`undefined` and unparsable strings give `NaN`, whitespace-only strings
give `0`. -/
def jsNumber : Option String → Json
  | none => .nan
  | some s =>
    let t := trimChars s.data
    if t.isEmpty then .num 0
    else match parseDecimal t with
      | some q => .num q
      | none => .nan

/-- JS `x.toFixed()` (zero digits): rounds half away from zero and
yields a string; `NaN` prints as `"NaN"`. -/
def jsToFixed0 : Json → String
  | .num q => toString (if q < 0 then -(round (-q)) else round q)
  | _ => "NaN"

/-! ## A JSON.parse model

`JSON.parse` is needed by the `enum` and `required` keyword coercions.
The model below covers the JSON fragment those annotation values use
(strings without `\u` escapes, decimal numbers without exponents,
arrays, objects, literals); inputs outside the fragment report an
error, as the real parser does for the malformed inputs that occur
here. -/

/-- Skip JSON whitespace. -/
def skipWsJ (cs : List Char) : List Char :=
  cs.dropWhile (fun c => isJsWs c)

/-- Parse a JSON string body after the opening quote; returns the
content and the remainder past the closing quote. -/
def parseJsonStr : List Char → List Char → Except String (String × List Char)
  | [], _ => .error "unterminated string"
  | '"' :: r, acc => .ok (String.mk acc.reverse, r)
  | '\\' :: e :: r, acc =>
    let esc : Except String Char :=
      if e = '"' then .ok '"'
      else if e = '\\' then .ok '\\'
      else if e = '/' then .ok '/'
      else if e = 'n' then .ok '\n'
      else if e = 't' then .ok '\t'
      else if e = 'r' then .ok '\r'
      else .error "unsupported escape"
    match esc with
    | .ok c => parseJsonStr r (c :: acc)
    | .error m => .error m
  | c :: r, acc => parseJsonStr r (c :: acc)

/-- Characters that may begin or continue a JSON number token. -/
def isJsonNumChar (c : Char) : Bool :=
  c.isDigit || c = '-' || c = '+' || c = '.'

mutual

/-- Fuel-indexed JSON value parser; the entry point supplies ample fuel
for any input it is called on, so exhaustion is unreachable there. -/
def parseJsonVal : Nat → List Char → Except String (Json × List Char)
  | 0, _ => .error "fuel"
  | fuel + 1, cs =>
    match skipWsJ cs with
    | [] => .error "unexpected end"
    | 'n' :: 'u' :: 'l' :: 'l' :: r => .ok (.null, r)
    | 't' :: 'r' :: 'u' :: 'e' :: r => .ok (.bool true, r)
    | 'f' :: 'a' :: 'l' :: 's' :: 'e' :: r => .ok (.bool false, r)
    | '"' :: r => (parseJsonStr r []).map (fun p => (.str p.1, p.2))
    | '[' :: r =>
      (match skipWsJ r with
       | ']' :: r2 => .ok (.arr [], r2)
       | _ => (parseJsonItems fuel r).map (fun p => (.arr p.1, p.2)))
    | '{' :: r =>
      (match skipWsJ r with
       | '}' :: r2 => .ok (.obj [], r2)
       | _ => (parseJsonMembers fuel r).map (fun p => (.obj p.1, p.2)))
    | c :: r =>
      if isJsonNumChar c then
        let tok := (c :: r).takeWhile (fun d => isJsonNumChar d)
        let rest := (c :: r).dropWhile (fun d => isJsonNumChar d)
        match parseDecimal tok with
        | some q => .ok (.num q, rest)
        | none => .error "bad number"
      else .error "unexpected character"

/-- Comma-separated JSON array items up to `]`. -/
def parseJsonItems (fuel : Nat) (cs : List Char) :
    Except String (List Json × List Char) :=
  match fuel with
  | 0 => .error "fuel"
  | fuel + 1 =>
    match parseJsonVal fuel cs with
    | .error m => .error m
    | .ok (v, rest) =>
      match skipWsJ rest with
      | ',' :: r2 => (parseJsonItems fuel r2).map (fun p => (v :: p.1, p.2))
      | ']' :: r2 => .ok ([v], r2)
      | _ => .error "expected comma or bracket"

/-- Comma-separated JSON object members up to the closing brace. -/
def parseJsonMembers (fuel : Nat) (cs : List Char) :
    Except String (List (String × Json) × List Char) :=
  match fuel with
  | 0 => .error "fuel"
  | fuel + 1 =>
    match skipWsJ cs with
    | '"' :: r =>
      (match parseJsonStr r [] with
       | .error m => .error m
       | .ok (key, rest) =>
         match skipWsJ rest with
         | ':' :: r2 =>
           (match parseJsonVal fuel r2 with
            | .error m => .error m
            | .ok (v, rest2) =>
              match skipWsJ rest2 with
              | ',' :: r3 => (parseJsonMembers fuel r3).map (fun p => ((key, v) :: p.1, p.2))
              | '}' :: r3 => .ok ([(key, v)], r3)
              | _ => .error "expected comma or brace")
         | _ => .error "expected colon")
    | _ => .error "expected key"

end

/-- JS `JSON.parse(s)` on the modelled fragment. -/
def jsonParse (s : String) : Except String Json :=
  match parseJsonVal (2 * s.data.length + 4) s.data with
  | .error m => .error m
  | .ok (v, rest) =>
    if (skipWsJ rest).isEmpty then .ok v else .error "trailing characters"

/-! ## The deepmerge dependency

`generateSpecAndMount` merges each stream's path fragment with the npm
`deepmerge` package (default options).  Its algorithm: two arrays
concatenate, mismatched array-ness clones the source, and otherwise the
source's keys are merged over the target's, recursing only when the key
is present on the target and the source value is an object or array.
Unmodelled corners (inherited/unsafe prototype keys; a `null`/`undefined`
source, on which the real library throws) do not occur in this program. -/

/-- The package's `isMergeableObject` on the values occurring here:
plain objects and arrays. -/
def isMergeable : Json → Bool
  | .obj _ => true
  | .arr _ => true
  | _ => false

/-- Start of `mergeObject`: the destination is seeded with the target's
own fields when the target is mergeable. -/
def destInit : Json → List (String × Json)
  | .obj fs => fs
  | _ => []

mutual

/-- The npm `deepmerge(target, source)` with default options. -/
def deepmerge (t s : Json) : Json :=
  match t, s with
  | .arr xs, .arr ys => .arr (xs ++ ys)
  | _, .arr ys => .arr ys
  | .arr _, s2 => s2
  | t2, .obj ss => .obj (mergeFields t2 (destInit t2) ss)
  | t2, .str s2 => .obj (jsSetMany (destInit t2) (spreadFields (.str s2)))
  | t2, _ => .obj (destInit t2)

/-- The key loop of the package's `mergeObject`. -/
def mergeFields (t : Json) (dest : List (String × Json)) :
    List (String × Json) → List (String × Json)
  | [] => dest
  | (k, v) :: rest =>
    let newv :=
      if (Json.get? t k).isSome && isMergeable v then
        deepmerge ((Json.get? t k).getD .undef) v
      else v
    mergeFields t (jsSet dest k newv) rest

end

/-! ## The doctrine type-AST

`constructPropertyType` dispatches on `type.type`, the node-kind string of
the doctrine type-expression parser.  The node kinds with a defined
behaviour in `typeConstructors` are modelled; a kind outside this set hits
an undefined table entry in the source (a `TypeError`), a crash case this
closed inductive omits. -/
inductive TypeAst where
  | stringLiteralType (value : String)
  | nameExpression (name : String)
  | optionalType (expression : TypeAst)
  | typeApplication (expression : TypeAst) (applications : List TypeAst)
  | unionType (elements : List TypeAst)
  | nullLiteral
  | allLiteral
deriving Repr

/-- The doctrine `type.type` kind string of a node. -/
def TypeAst.kindName : TypeAst → String
  | .stringLiteralType _ => "StringLiteralType"
  | .nameExpression _ => "NameExpression"
  | .optionalType _ => "OptionalType"
  | .typeApplication _ _ => "TypeApplication"
  | .unionType _ => "UnionType"
  | .nullLiteral => "NullLiteral"
  | .allLiteral => "AllLiteral"

/-- The errors the modelled code can raise.  `unknownModel`,
`unknownModelProperty`, `invalidLocation` and `invalidIn` are the
source's own `throw new Error(...)` sites (the message text is reduced to
its data); `malformedLiteral` stands for a `JSON.parse` throw;
`typeError` and `stackOverflow` stand for the runtime errors the source
runs into on degenerate inputs.  All are caught alike by the per-stream
`try/catch` of `generateSpecAndMount`. -/
inductive JsError where
  | unknownModel (model : String)
  | unknownModelProperty (property : String) (model : String)
  | invalidLocation (loc : String)
  | invalidIn (value : String)
  | malformedLiteral (msg : String)
  | typeError (msg : String)
  | stackOverflow
deriving Repr, DecidableEq

/-- The primitive names of `simpleNameExpressions`
(src/lib/swagger.js:142). -/
def simpleNameExpressions : List String :=
  ["string", "number", "integer", "boolean"]

/-- The keys of the `typeConstructors` dispatch table
(src/lib/swagger.js:149).  A `NameExpression` whose dotted name equals
one of these is routed to the corresponding constructor instead of the
schema registry. -/
def typeConstructorNames : List String :=
  ["StringLiteralType", "NameExpression", "Array", "Object", "Enum",
   "Date", "File", "OptionalType", "TypeApplication", "UnionType", "AllLiteral"]

/-! ### The isRegExp check

`isRegExp` (src/lib/swagger.js:126) splices its argument verbatim into
the JavaScript source `"use strict"; try { new RegExp(<argument>); return
true; } catch (e) { return false; }` compiled by `Function` and reports
whether compiling and running that source reaches `return true` — a
`SyntaxError` of the spliced source or a throw during evaluation (a
`ReferenceError` on an unbound identifier, a `SyntaxError` thrown by the
`RegExp` constructor) yields `false`.  The check therefore does not test
regular-expression validity of the argument: a bare pattern body such as
`^[a-z]+$` is a syntax error as JS source and is rejected, while a
slash-delimited regex literal, a quoted string whose content is a valid
regex, a numeric literal or a keyword literal such as `true` is accepted.

`spliceEval` below decides that evaluation exactly on a syntactically
delimited fragment of splices and answers `none` outside it; every claim
about the classification quantifies within the fragment.  The fragment
and the verdicts, each traceable against the ECMAScript rules the source
relies on:
  * a whitespace-only splice: `new RegExp()` — accepted;
  * a first character that cannot begin any JS expression (`^ * ? ) ] }
    | & = > < , ; : % @ #`): `SyntaxError` — rejected;
  * a quoted string literal followed by nothing: strict-mode escape
    decoding (raw line breaks and legacy `\\digit` escapes are syntax
    errors; unknown single-character escapes drop the backslash), then
    accepted exactly when the decoded content is a valid pattern;
  * a slash-delimited regex literal with flags drawn from `g i m s y`
    (no duplicates) followed by nothing: accepted exactly when the body
    is a valid pattern; unknown or duplicated flag letters are syntax
    errors — rejected;
  * a signed decimal numeral followed by nothing: its decimal
    stringification is always a valid pattern — accepted; a leading-zero
    numeral such as `045` is a strict-mode syntax error — rejected;
  * one of the literals `true false null undefined NaN Infinity`
    followed by nothing: each stringifies into a valid pattern —
    accepted.
Pattern validity is decided by `regexValid` for the sloppy-mode regex
grammar core (literals, `.`, escapes, classes with ranges, groups,
`* + ?` quantifiers with laziness, alternation); constructs whose JS
acceptance is engine- or Annex-B-subtle (brace quantifiers, lookarounds,
backreference and hex escapes, `u`-mode flags, range endpoints that are
class escapes, quantified assertions) put the splice outside the
modelled fragment rather than guessing.  Every other splice shape
(general expressions, unmodelled identifiers, comments, templates) is
likewise outside the fragment, where the embedding's classifier defaults
to `false`; no theorem relies on that default. -/

/-- Verdict of one parsing step of the splice model: definite syntax
error, a construct outside the modelled fragment, or success with the
unconsumed remainder. -/
inductive RxRes where
  | err
  | dark
  | ok (rest : List Char)

/-- Verdict for one character-class atom: a set escape such as `\d`, a
single code point, an error, or an unmodelled construct. -/
inductive ClassAtomRes where
  | err
  | dark
  | setE (rest : List Char)
  | val (n : Nat) (rest : List Char)

/-- Does the remainder begin with a `* + ?` quantifier character? -/
def startsQuant : List Char → Bool
  | '*' :: _ => true
  | '+' :: _ => true
  | '?' :: _ => true
  | _ => false

/-- One atom of a character class: set escapes, control escapes with
their code points, identity escapes of non-alphanumerics, or a plain
character; letter and digit escapes beyond these are unmodelled. -/
def rxClassAtom : List Char → ClassAtomRes
  | [] => .err
  | '\\' :: rest =>
    match rest with
    | [] => .err
    | c :: rest2 =>
      if c = 'd' ∨ c = 'D' ∨ c = 's' ∨ c = 'S' ∨ c = 'w' ∨ c = 'W' then
        .setE rest2
      else if c = 'n' then .val 10 rest2
      else if c = 'r' then .val 13 rest2
      else if c = 't' then .val 9 rest2
      else if c = 'f' then .val 12 rest2
      else if c = 'v' then .val 11 rest2
      else if c = 'b' then .val 8 rest2
      else if c.isAlpha ∨ c.isDigit then .dark
      else .val c.toNat rest2
  | c :: rest => .val c.toNat rest

/-- The items of a character class up to its closing `]`: atoms and
`a-b` ranges; an out-of-order range is a syntax error, a range endpoint
that is a set escape is Annex-B-subtle and unmodelled, a trailing `-` is
a literal. -/
def rxClassItems (fuel : Nat) (cs : List Char) : RxRes :=
  match fuel with
  | 0 => .dark
  | fuel + 1 =>
    match cs with
    | [] => .err
    | ']' :: rest => .ok rest
    | _ =>
      match rxClassAtom cs with
      | .err => .err
      | .dark => .dark
      | .setE rest =>
        match rest with
        | '-' :: ']' :: rest2 => .ok rest2
        | '-' :: _ => .dark
        | _ => rxClassItems fuel rest
      | .val a rest =>
        match rest with
        | '-' :: ']' :: rest2 => .ok rest2
        | '-' :: rest2 =>
          match rxClassAtom rest2 with
          | .err => .err
          | .dark => .dark
          | .setE _ => .dark
          | .val b rest3 => if a ≤ b then rxClassItems fuel rest3 else .err
        | _ => rxClassItems fuel rest

/-- An optional quantifier after an atom, with optional laziness; a
quantifier directly following another is a syntax error (nothing to
repeat). -/
def rxConsumeQuant : List Char → RxRes
  | [] => .ok []
  | c :: rest =>
    if c = '*' ∨ c = '+' ∨ c = '?' then
      match rest with
      | '?' :: rest2 => if startsQuant rest2 then .err else .ok rest2
      | _ => if startsQuant rest then .err else .ok rest
    else .ok (c :: rest)

mutual

/-- A regex disjunction: alternatives separated by `|`, stopping at the
end or an unconsumed `)`. -/
def rxDisj (fuel : Nat) (cs : List Char) : RxRes :=
  match fuel with
  | 0 => .dark
  | fuel + 1 =>
    match rxAlt fuel cs with
    | .err => .err
    | .dark => .dark
    | .ok rest =>
      match rest with
      | '|' :: rest2 => rxDisj fuel rest2
      | _ => .ok rest

/-- One alternative: a sequence of terms.  A leading `* + ?` has
nothing to repeat (syntax error); anchors and word-boundary assertions
followed by a quantifier are engine-subtle and unmodelled. -/
def rxAlt (fuel : Nat) (cs : List Char) : RxRes :=
  match fuel with
  | 0 => .dark
  | fuel + 1 =>
    match cs with
    | [] => .ok []
    | ')' :: _ => .ok cs
    | '|' :: _ => .ok cs
    | '^' :: rest => if startsQuant rest then .dark else rxAlt fuel rest
    | '$' :: rest => if startsQuant rest then .dark else rxAlt fuel rest
    | '*' :: _ => .err
    | '+' :: _ => .err
    | '?' :: _ => .err
    | '\\' :: 'b' :: rest => if startsQuant rest then .dark else rxAlt fuel rest
    | '\\' :: 'B' :: rest => if startsQuant rest then .dark else rxAlt fuel rest
    | _ =>
      match rxAtom fuel cs with
      | .err => .err
      | .dark => .dark
      | .ok rest =>
        match rxConsumeQuant rest with
        | .err => .err
        | .dark => .dark
        | .ok rest2 => rxAlt fuel rest2

/-- One atom: `.`, a plain or `(?:`-group (special groups such as
lookarounds are unmodelled), a character class, an escape (class
escapes, control escapes, identity escapes of non-alphanumerics; other
letter or digit escapes unmodelled), or a literal character. -/
def rxAtom (fuel : Nat) (cs : List Char) : RxRes :=
  match fuel with
  | 0 => .dark
  | fuel + 1 =>
    match cs with
    | [] => .err
    | '.' :: rest => .ok rest
    | '(' :: rest =>
      match rest with
      | '?' :: ':' :: rest2 => rxGroupTail fuel rest2
      | '?' :: _ => .dark
      | _ => rxGroupTail fuel rest
    | '[' :: rest =>
      match rest with
      | '^' :: rest2 => rxClassItems (rest2.length + 1) rest2
      | _ => rxClassItems (rest.length + 1) rest
    | '\\' :: rest =>
      match rest with
      | [] => .err
      | c :: rest2 =>
        if c = 'd' ∨ c = 'D' ∨ c = 's' ∨ c = 'S' ∨ c = 'w' ∨ c = 'W'
            ∨ c = 'n' ∨ c = 'r' ∨ c = 't' ∨ c = 'f' ∨ c = 'v' then .ok rest2
        else if c.isAlpha ∨ c.isDigit then .dark
        else .ok rest2
    | _ :: rest => .ok rest

/-- The body and closing parenthesis of a group. -/
def rxGroupTail (fuel : Nat) (cs : List Char) : RxRes :=
  match fuel with
  | 0 => .dark
  | fuel + 1 =>
    match rxDisj fuel cs with
    | .err => .err
    | .dark => .dark
    | .ok rest =>
      match rest with
      | ')' :: rest2 => .ok rest2
      | _ => .err

end

/-- Validity of a pattern under the modelled sloppy-mode core grammar:
`some true` when `new RegExp` accepts it, `some false` when it throws a
`SyntaxError`, `none` outside the core (brace quantifiers anywhere put a
pattern outside the core). -/
def regexValid (cs : List Char) : Option Bool :=
  if cs.contains '{' ∨ cs.contains '}' then none
  else
    match rxDisj (4 * cs.length + 8) cs with
    | .err => some false
    | .dark => none
    | .ok [] => some true
    | .ok (_ :: _) => some false

/-- Outcome of lexing a delimited literal: error, unmodelled, or the
(decoded) content together with the remainder after the delimiter. -/
inductive StrLitRes where
  | err
  | dark
  | okS (content : List Char) (rest : List Char)

/-- The content of a quoted JS string literal with delimiter `q`, with
strict-mode escape decoding: a raw line break or a `\\digit` escape is a
syntax error, hex and unicode escapes and line continuations are
unmodelled, any other escaped character maps to its control code point
or to itself.  An unterminated literal swallows the template's tail,
which holds no further quote — a syntax error. -/
def strLitBody (fuel : Nat) (q : Char) (cs : List Char) : StrLitRes :=
  match fuel with
  | 0 => .dark
  | fuel + 1 =>
    match cs with
    | [] => .err
    | c :: rest =>
      if c = q then .okS [] rest
      else if c = '\n' ∨ c = '\r' then .err
      else if c = '\\' then
        match rest with
        | [] => .err
        | e :: rest2 =>
          if e = '\n' ∨ e = '\r' then .dark
          else if e = 'x' ∨ e = 'u' then .dark
          else if e.isDigit then .err
          else
            let d : Char :=
              if e = 'n' then '\n'
              else if e = 't' then '\t'
              else if e = 'r' then '\r'
              else if e = 'b' then Char.ofNat 8
              else if e = 'f' then Char.ofNat 12
              else if e = 'v' then Char.ofNat 11
              else e
            match strLitBody fuel q rest2 with
            | .err => .err
            | .dark => .dark
            | .okS content rest3 => .okS (d :: content) rest3
      else
        match strLitBody fuel q rest with
        | .err => .err
        | .dark => .dark
        | .okS content rest2 => .okS (c :: content) rest2

/-- The body of a slash-delimited regex literal, per the JS lexer: `\\`
escapes the next character, an unescaped `/` outside a character class
terminates, `[` … `]` delimit a class in which `/` is literal, and a
line break anywhere (the literal cannot span lines, and an unterminated
literal reaches the template's line break) is a syntax error. -/
def rxLitBody (fuel : Nat) (inClass : Bool) (cs : List Char) : StrLitRes :=
  match fuel with
  | 0 => .dark
  | fuel + 1 =>
    match cs with
    | [] => .err
    | c :: rest =>
      if c = '\n' ∨ c = '\r' then .err
      else if c = '\\' then
        match rest with
        | [] => .err
        | e :: rest2 =>
          if e = '\n' ∨ e = '\r' then .err
          else
            match rxLitBody fuel inClass rest2 with
            | .err => .err
            | .dark => .dark
            | .okS body rest3 => .okS ('\\' :: e :: body) rest3
      else if c = '/' ∧ ¬ inClass then .okS [] rest
      else
        let inClass2 := if c = '[' then true else if c = ']' then false else inClass
        match rxLitBody fuel inClass2 rest with
        | .err => .err
        | .dark => .dark
        | .okS body rest2 => .okS (c :: body) rest2

/-- Are the listed characters pairwise distinct? -/
def noDupCh : List Char → Bool
  | [] => true
  | c :: rest => !(rest.contains c) && noDupCh rest

/-- Verdict on a regex literal's flag run: an unknown or duplicated
flag letter is a syntax error; the valid flags `d u v` change or
postdate the modelled validity regime and are unmodelled; `g i m s y`
leave the sloppy grammar in force. -/
def rxFlagsCheck (fl : List Char) : Option Bool :=
  if fl.any (fun c => !(c == 'd' || c == 'g' || c == 'i' || c == 'm'
      || c == 's' || c == 'u' || c == 'y' || c == 'v')) then some false
  else if !(noDupCh fl) then some false
  else if fl.any (fun c => c == 'd' || c == 'u' || c == 'v') then none
  else some true

/-- JS source whitespace of the splice (the template adds spaces and
line breaks of its own around the argument). -/
def isSpliceWs (c : Char) : Bool :=
  c = ' ' ∨ c = '\t' ∨ c = '\n' ∨ c = '\r'

/-- Is the remainder whitespace only?  (Anything further after a
complete literal makes a larger expression, outside the fragment.) -/
def wsOnly (cs : List Char) : Bool := cs.all isSpliceWs

/-- Characters that cannot begin any JavaScript expression: splices
starting with one are syntax errors outright (`^ * ? &` and the rest
are binary-only operators or unmatched closers; `@` and `#` have no
expression-start production in a plain function body). -/
def neverStartChar (c : Char) : Bool :=
  c = '^' ∨ c = '*' ∨ c = '?' ∨ c = ')' ∨ c = ']' ∨ c = '}' ∨ c = '|'
  ∨ c = '&' ∨ c = '=' ∨ c = '>' ∨ c = '<' ∨ c = ',' ∨ c = ';' ∨ c = ':'
  ∨ c = '%' ∨ c = '@' ∨ c = '#'

/-- The exponent-digit tail of a numeral: missing exponent digits are a
syntax error; trailing non-whitespace leaves the fragment. -/
def expTail (cs : List Char) : Option Bool :=
  let cs2 := match cs with
    | '+' :: r => r
    | '-' :: r => r
    | _ => cs
  let sp := cs2.span Char.isDigit
  if sp.1.isEmpty then some false
  else if wsOnly sp.2 then some true else none

/-- The optional exponent of a numeral. -/
def expCheck (cs : List Char) : Option Bool :=
  match cs with
  | 'e' :: rest => expTail rest
  | 'E' :: rest => expTail rest
  | _ => if wsOnly cs then some true else none

/-- The optional fraction of a numeral. -/
def fracExp (cs : List Char) : Option Bool :=
  match cs with
  | '.' :: rest => expCheck (rest.span Char.isDigit).2
  | _ => expCheck cs

/-- A strict-mode decimal numeral starting at `cs`: `0` may not be
followed by a digit (legacy octal, a strict-mode syntax error); the
decimal stringification of any accepted numeral is a valid pattern, so
acceptance means `true`. -/
def numeralCheck (cs : List Char) : Option Bool :=
  match cs with
  | '.' :: rest =>
    let sp := rest.span Char.isDigit
    if sp.1.isEmpty then some false else expCheck sp.2
  | '0' :: rest =>
    match rest with
    | d :: _ => if d.isDigit then some false else fracExp rest
    | [] => some true
  | c :: rest =>
    if c.isDigit then fracExp (rest.span Char.isDigit).2 else none
  | [] => none

/-- Identifier characters of the flag run and of identifier splices. -/
def isIdentCh (c : Char) : Bool :=
  c.isAlphanum || c = '_' || c = '$'

/-- The source's check, decided on the modelled fragment (see the
section comment): `some true` when the spliced source compiles and runs
to `return true`, `some false` when it throws, `none` outside the
fragment. -/
def spliceEval (s : String) : Option Bool :=
  match s.data.dropWhile isSpliceWs with
  | [] => some true
  | c :: rest =>
    if neverStartChar c then some false
    else if c = '\'' ∨ c = '"' then
      match strLitBody (rest.length + 1) c rest with
      | .err => some false
      | .dark => none
      | .okS content rest2 =>
        if wsOnly rest2 then regexValid content else none
    else if c = '/' then
      match rest with
      | '/' :: _ => none
      | '*' :: _ => none
      | _ =>
        match rxLitBody (rest.length + 1) false rest with
        | .err => some false
        | .dark => none
        | .okS body rest2 =>
          let sp := rest2.span isIdentCh
          if !(wsOnly sp.2) then none
          else
            match rxFlagsCheck sp.1 with
            | some false => some false
            | none => none
            | some true => regexValid body
    else if c = '+' ∨ c = '-' then
      match rest.dropWhile isSpliceWs with
      | d :: ds =>
        if d.isDigit ∨ d = '.' then numeralCheck (d :: ds) else none
      | [] => some false
    else if c = '.' then
      match rest with
      | d :: _ => if d.isDigit then numeralCheck (c :: rest) else some false
      | [] => some false
    else if c.isDigit then numeralCheck (c :: rest)
    else if c.isAlpha ∨ c = '_' ∨ c = '$' then
      let sp := (c :: rest).span isIdentCh
      let idn := String.mk sp.1
      if idn = "true" ∨ idn = "false" ∨ idn = "null" ∨ idn = "undefined"
          ∨ idn = "NaN" ∨ idn = "Infinity" then
        if wsOnly sp.2 then some true else none
      else none
    else none

/-- The compiler's classifier: `spliceEval` where the fragment decides,
and the modelling default `false` (the `format` arm) outside it — a
default no theorem relies on. -/
def isRegExpStr (s : String) : Bool :=
  (spliceEval s).getD false

/-- Model of `isRegExp` applied to an arbitrary compiled value: the
template literal stringifies the value into the spliced source.
Numbers, `NaN`, booleans, `null` and `undefined` splice to expressions
the `RegExp` constructor accepts; an object stringifies to
`[object Object]` (a syntax error); an empty array splices to nothing
(`new RegExp()`); a non-empty array is conservatively rejected (its
comma-joined form becomes an argument list, rejected for the shapes
arising here). -/
def isRegExpJson : Json → Bool
  | .str s => isRegExpStr s
  | .num _ => true
  | .nan => true
  | .bool _ => true
  | .null => true
  | .undef => true
  | .arr [] => true
  | .arr (_ :: _) => false
  | .obj _ => false

/-- The fixed catch-all schema of `constructAllLiteral`
(src/lib/swagger.js:303). -/
def allLiteralSchema : Json :=
  .obj [("nullable", .bool true),
        ("anyOf", .arr [
          .obj [("type", .str "string")],
          .obj [("type", .str "number")],
          .obj [("type", .str "integer")],
          .obj [("type", .str "boolean")],
          .obj [("type", .str "array"), ("items", .obj [])],
          .obj [("type", .str "object")]])]

/-- Drop the `NullLiteral` branches of a union, keeping order — the
element accumulation of `constructUnionType`'s reduce. -/
def filterNonNull (l : List TypeAst) : List TypeAst :=
  l.filter fun e => match e with
    | .nullLiteral => false
    | _ => true

/-- Drop-helper used only below: is a node the `NullLiteral` kind? -/
def isNullLit : TypeAst → Bool
  | .nullLiteral => true
  | _ => false

/-! ### The type-expression compiler

`constructPropertyType` (src/lib/swagger.js:317) dispatches on the node
kind and threads an optional `applications` list.  Two observations let
the embedding be structurally recursive (so that concrete runs reduce
inside the kernel):

* the `applications` argument is *read* only by `constructNameExpression`
  — `StringLiteralType`, `AllLiteral` and `NullLiteral` never touch it,
  `OptionalType` recurses without it, `TypeApplication` replaces it with
  its own argument list, and `constructUnionType` ignores it — so the
  compile-with-applications entry point only matters for a
  `TypeApplication` whose expression is directly a `NameExpression`.
  `constructNameExpressionNoApps` below is `constructNameExpression` with
  `applications` undefined, and the deep
  `typeApplication (nameExpression n) as` arm of `constructPropertyType`
  is `constructNameExpression` with `applications` present (note that an
  *empty* present list still reaches `constructArray`/`constructObject`,
  whose reduce then yields `{}`, while an undefined one crashes there);

* `constructUnionType`'s partition-then-map compiles exactly the
  non-null elements in element order, which `unionElems` does directly.

The registry (the module global `components.schemas`) and the structured
options are passed explicitly; the `field` parameter of the source, used
only inside log and error-message strings, is dropped.  Fallibility
(`throw`) is an `Except JsError` result. -/

/-- The schema-registry reference path of `constructNameExpression`
(src/lib/swagger.js:187-196): split the dotted name, require the model
(when the first segment is truthy) and, when a second truthy segment is
present, the property — reading `properties` of a model that lacks it,
or a property of an absent model whose first check was skipped, is the
source's `TypeError`.  The result is a bare `$ref` object. -/
def resolveNameRef (reg : List (String × Json)) (name : String) :
    Except JsError Json :=
  let parts := jsSplit '.' name
  let model := parts.headD ""
  let mp : Option String :=
    match parts[1]? with
    | some p => if p = "" then none else some p
    | none => none
  if model ≠ "" && !(jsHasDefined reg model) then .error (.unknownModel model)
  else
    match mp with
    | none => .ok (.obj [("$ref", .str ("#/components/schemas/" ++ model))])
    | some p =>
      match jsGet reg model with
      | none => .error (.typeError "reading properties of undefined")
      | some schema =>
        match schema.get? "properties" with
        | none => .error (.typeError "reading properties of undefined")
        | some .undef => .error (.typeError "reading properties of undefined")
        | some props =>
          match props.get? p with
          | none => .error (.unknownModelProperty p model)
          | some .undef => .error (.unknownModelProperty p model)
          | some _ =>
            .ok (.obj [("$ref",
              .str ("#/components/schemas/" ++ model ++ "/properties/" ++ p))])

/-- `constructEnum` (src/lib/swagger.js:225) without arguments:
`options.items || []` — a key the option grammar never produces, hence
`[]` in practice. -/
def constructEnumNoArgs (opts : Json) : Json :=
  .obj [("type", .str "string"),
        ("enum", match Json.get? opts "items" with
          | some v => if jsTruthy v then v else .arr []
          | none => .arr [])]

/-- `constructDate`/`constructFile` (src/lib/swagger.js:232, 249)
without arguments: `{type: string}` plus `options.format` when truthy. -/
def constructDateNoArgs (opts : Json) : Json :=
  match Json.get? opts "format" with
  | some f =>
    if jsTruthy f then .obj [("type", .str "string"), ("format", f)]
    else .obj [("type", .str "string")]
  | none => .obj [("type", .str "string")]

/-- `constructNameExpression` (src/lib/swagger.js:165) with
`applications` undefined.  In order: the primitive names (the
string-with-arguments branch requires a non-empty argument list, absent
here), then a name that is itself a `typeConstructors` key — the source
then calls that constructor on the `NameExpression` node:
`StringLiteralType` reads the absent `value` field giving `undefined`;
`NameExpression` recurses on itself forever; `Array` and `Object` reduce
over the undefined argument list and crash; `Enum`, `Date` and `File`
fall to their no-argument branches; `OptionalType`, `TypeApplication`
and `UnionType` read absent fields and crash; `AllLiteral` yields the
catch-all — and finally the schema-registry reference path. -/
def constructNameExpressionNoApps (reg : List (String × Json)) (opts : Json)
    (name : String) : Except JsError Json :=
  if name ∈ simpleNameExpressions then .ok (.obj [("type", .str name)])
  else if name = "StringLiteralType" then .ok .undef
  else if name = "NameExpression" then .error .stackOverflow
  else if name = "Array" then .error (.typeError "reduce of undefined")
  else if name = "Object" then .error (.typeError "reduce of undefined")
  else if name = "Enum" then .ok (constructEnumNoArgs opts)
  else if name = "Date" then .ok (constructDateNoArgs opts)
  else if name = "File" then .ok (constructDateNoArgs opts)
  else if name = "OptionalType" then .error (.typeError "undefined expression")
  else if name = "TypeApplication" then .error (.typeError "undefined expression")
  else if name = "UnionType" then .error (.typeError "undefined elements")
  else if name = "AllLiteral" then .ok allLiteralSchema
  else resolveNameRef reg name

mutual

/-- `constructPropertyType` (src/lib/swagger.js:317); see the section
comment for the specialization of the `applications` parameter.
`OptionalType` and `TypeApplication` spread their inner result into a
fresh object literal; a top-level `NullLiteral` has no table entry and
crashes in the source; a `TypeApplication` whose expression is not
directly a `NameExpression` behaves as the no-applications compile of
that expression.  The union arm is `constructUnionType`
(src/lib/swagger.js:280): split off the null-literal branches, compile
the rest (several into `anyOf`, a single one spread directly, none
crashing in the source reading `elements[0].type`), then assign
`nullable`. -/
def constructPropertyType (reg : List (String × Json)) (opts : Json) :
    TypeAst → Except JsError Json
  | .stringLiteralType v => .ok (.str v)
  | .nameExpression n => constructNameExpressionNoApps reg opts n
  | .optionalType e =>
    (constructPropertyType reg opts e).map fun v => .obj (spreadFields v)
  | .typeApplication (.nameExpression n) as =>
    (if n ∈ simpleNameExpressions then
      (match as with
       | [] => .ok (.obj [("type", .str n)])
       | a :: rest =>
         if n = "string" then
           (stringApps reg opts n (a :: rest)).map fun props =>
             match props with
             | [p] => p
             | ps => .obj [("oneOf", .arr ps)]
         else .ok (.obj [("type", .str n)]))
    else if n = "StringLiteralType" then .ok .undef
    else if n = "NameExpression" then .error .stackOverflow
    else if n = "Array" then
      (compileLast reg opts as).map fun items =>
        .obj [("type", .str "array"), ("items", items)]
    else if n = "Object" then
      (objectProps reg opts [] as).map fun props =>
        .obj [("type", .str "object"), ("properties", .obj props)]
    else if n = "Enum" then
      match as with
      | [] => .ok (constructEnumNoArgs opts)
      | a :: rest =>
        (compileList reg opts (a :: rest)).map fun vs =>
          .obj [("type", .str "string"), ("enum", .arr vs)]
    else if n = "Date" then
      match as with
      | [] => .ok (constructDateNoArgs opts)
      | a :: rest =>
        (dateApps reg opts (a :: rest)).map fun props => .obj [("anyOf", .arr props)]
    else if n = "File" then
      match as with
      | [] => .ok (constructDateNoArgs opts)
      | a :: rest =>
        (dateApps reg opts (a :: rest)).map fun props =>
          match props with
          | [p] => p
          | ps => .obj [("oneOf", .arr ps)]
    else if n = "OptionalType" then .error (.typeError "undefined expression")
    else if n = "TypeApplication" then .error (.typeError "undefined expression")
    else if n = "UnionType" then .error (.typeError "undefined elements")
    else if n = "AllLiteral" then .ok allLiteralSchema
    else resolveNameRef reg n).map fun v => .obj (spreadFields v)
  | .typeApplication e _ =>
    (constructPropertyType reg opts e).map fun v => .obj (spreadFields v)
  | .unionType es =>
    let nullable := es.any fun e => isNullLit e
    match filterNonNull es with
    | [] => .error (.typeError "reading type of undefined")
    | [_] =>
      (unionElems reg opts es).map fun vs =>
        .obj (jsSet (spreadFields (vs.headD (.obj []))) "nullable" (.bool nullable))
    | _ :: _ :: _ =>
      (unionElems reg opts es).map fun vs =>
        .obj [("anyOf", .arr vs), ("nullable", .bool nullable)]
  | .nullLiteral => .error (.typeError "typeConstructors has no entry NullLiteral")
  | .allLiteral => .ok allLiteralSchema

/-- The per-argument map body of the `string`-with-arguments branch of
`constructNameExpression`: each compiled argument is classified
`pattern`/`format` by `isRegExp`. -/
def stringApps (reg : List (String × Json)) (opts : Json) (name : String) :
    List TypeAst → Except JsError (List Json)
  | [] => .ok []
  | a :: rest => do
    let v ← constructPropertyType reg opts a
    let tail ← stringApps reg opts name rest
    pure (Json.obj [("type", .str name),
      ((if isRegExpJson v then "pattern" else "format"), v)] :: tail)

/-- The member loop of `constructObject`'s reduce
(src/lib/swagger.js:210): each application must carry an `expression`
(else the source crashes reading `.name`); a non-name expression yields
the JS key `"undefined"`; the member value is the last compiled inner
application. -/
def objectProps (reg : List (String × Json)) (opts : Json)
    (acc : List (String × Json)) :
    List TypeAst → Except JsError (List (String × Json))
  | [] => .ok acc
  | app :: rest =>
    match app with
    | .typeApplication e as2 => do
      let pn := match e with
        | .nameExpression n => n
        | _ => "undefined"
      let v ← compileLast reg opts as2
      objectProps reg opts (jsSet acc pn v) rest
    | _ => .error (.typeError "reading name of undefined")

/-- The per-argument map of `constructDate`/`constructFile`: each
compiled argument becomes `{type: string, format: <compiled>}`. -/
def dateApps (reg : List (String × Json)) (opts : Json) :
    List TypeAst → Except JsError (List Json)
  | [] => .ok []
  | a :: rest => do
    let v ← constructPropertyType reg opts a
    let tail ← dateApps reg opts rest
    pure (Json.obj [("type", .str "string"), ("format", v)] :: tail)

/-- Elementwise compilation of a list of type arguments (the `map`
bodies of `constructEnum` and the several-element union branch). -/
def compileList (reg : List (String × Json)) (opts : Json) :
    List TypeAst → Except JsError (List Json)
  | [] => .ok []
  | a :: rest => do
    let v ← constructPropertyType reg opts a
    let tail ← compileList reg opts rest
    pure (v :: tail)

/-- A JS `[].reduce((acc, a) => constructPropertyType(a, ...), {})` as
used by `constructArray` (src/lib/swagger.js:199) and the object member
values: every element is compiled in order (so an early throw
propagates) and the last result, or `{}` for an empty list, is kept. -/
def compileLast (reg : List (String × Json)) (opts : Json) :
    List TypeAst → Except JsError Json
  | [] => .ok (.obj [])
  | [a] => constructPropertyType reg opts a
  | a :: rest => do
    _ ← constructPropertyType reg opts a
    compileLast reg opts rest

/-- The compiled non-null branches of a union, in element order (the
element accumulation plus per-element compilation of
`constructUnionType`). -/
def unionElems (reg : List (String × Json)) (opts : Json) :
    List TypeAst → Except JsError (List Json)
  | [] => .ok []
  | .nullLiteral :: rest => unionElems reg opts rest
  | e :: rest => do
    let v ← constructPropertyType reg opts e
    let tail ← unionElems reg opts rest
    pure (v :: tail)

end


/-! ## The option grammar

`optionsReducer` (src/lib/swagger.js:402) splits a free-text description
on dash bullets and folds each segment into a store keyed by the two
keyword tables; `constructOptions` (src/lib/swagger.js:363) then
flattens the store into the options object handed to the type
compiler. -/

/-- The keys of `keywordsObject` (src/lib/swagger.js:322). -/
def objectKeywords : List String :=
  ["in", "description", "not", "deprecated", "discriminator", "example",
   "externalDocs", "nullable", "readOnly", "writeOnly", "xml", "required",
   "oneOf", "allOf", "anyOf"]

/-- The keys of `keywordsParameter` (src/lib/swagger.js:344). -/
def parameterKeywords : List String :=
  ["title", "format", "pattern", "enum", "minimum", "maximum",
   "exclusiveMinimum", "exclusiveMaximum", "multipleOf", "minLength",
   "maxLength", "minItems", "maxItems", "uniqueItems", "minProperties",
   "maxProperties"]

/-- The composition keywords that open a nested accumulator. -/
def compositionKeywords : List String :=
  ["not", "allOf", "anyOf", "oneOf"]

/-- The valid `in` locations (shared by `keywordsObject.in` and
`constructProperty`). -/
def locationNames : List String :=
  ["query", "path", "body", "headers"]

/-- A string-or-`undefined` value as a `Json`. -/
def strOrUndef : Option String → Json
  | none => .undef
  | some s => .str s

/-- The `typeof value === 'undefined' ? true : value === 'true'`
coercion shared by several boolean keywords. -/
def jsBoolDefaultTrue : Option String → Json
  | none => .bool true
  | some s => .bool (s = "true")

/-- The value coercions of `keywordsParameter` (src/lib/swagger.js:344):
`enum` JSON-parses its value after globally replacing apostrophes with
double quotes (throwing on a missing value or malformed literal), the
numeric keywords coerce through `Number`, the integer bounds additionally
round through `toFixed()` (yielding a string), and the boolean keywords
default to `true` when valueless. -/
def kwParamCoerce (key : String) (v : Option String) : Except JsError Json :=
  if key = "title" || key = "format" || key = "pattern" then .ok (strOrUndef v)
  else if key = "enum" then
    match v with
    | none => .error (.typeError "replace of undefined")
    | some s =>
      match jsonParse (jsReplaceAllChar '\'' '"' s) with
      | .ok j => .ok j
      | .error m => .error (.malformedLiteral m)
  else if key = "minimum" || key = "maximum" || key = "multipleOf" then
    .ok (jsNumber v)
  else if key = "exclusiveMinimum" || key = "exclusiveMaximum" || key = "uniqueItems" then
    .ok (jsBoolDefaultTrue v)
  else if key = "minLength" || key = "maxLength" || key = "minItems"
      || key = "maxItems" || key = "minProperties" || key = "maxProperties" then
    .ok (.str (jsToFixed0 (jsNumber v)))
  else .error (.typeError "not a parameter keyword")

/-- The value coercions of `keywordsObject` (src/lib/swagger.js:322).
`in` validates the location (throwing `invalidIn` otherwise — on a
missing value the thrown message interpolates `undefined`); `required`
JSON-parses its value after replacing the *first* apostrophe;
`deprecated` is always `true`; the composition coercions spread their
value and are unreachable from `constructOptions`, which intercepts
those keys first. -/
def kwObjCoerce (key : String) (v : Option String) : Except JsError Json :=
  if key = "in" then
    match v with
    | some s => if s ∈ locationNames then .ok (.str s) else .error (.invalidIn s)
    | none => .error (.invalidIn "undefined")
  else if key = "description" || key = "discriminator" || key = "example"
      || key = "externalDocs" || key = "xml" then .ok (strOrUndef v)
  else if key = "deprecated" then .ok (.bool true)
  else if key = "nullable" || key = "readOnly" || key = "writeOnly" then
    .ok (jsBoolDefaultTrue v)
  else if key = "required" then
    match v with
    | none => .error (.typeError "replace of undefined")
    | some s =>
      match jsonParse (jsReplaceFirst "'" "\x22" s) with
      | .ok j => .ok j
      | .error m => .error (.malformedLiteral m)
  else if key = "not" then .ok (.obj (spreadFields (strOrUndef v)))
  else if key = "oneOf" || key = "allOf" || key = "anyOf" then
    match v with
    | some s => .ok (.arr (s.data.map (fun c => Json.str (String.mk [c]))))
    | none => .error (.typeError "spread of undefined")
  else .error (.typeError "not an object keyword")

/-- A store entry: an object-keyword value held verbatim, an accumulated
parameter-keyword value list (newest first, as the source prepends), or
the nested accumulator opened by a composition keyword (which only ever
holds parameter value lists). -/
inductive StoreVal where
  | objVal (v : Option String)
  | paramVals (vs : List Json)
  | nested (entries : List (String × List Json))
deriving Repr

/-- The accumulator object of `optionsReducer`: its reserved `level` key
is kept as a separate field, the remaining properties in insertion
order. -/
structure Store where
  level : Option String
  entries : List (String × StoreVal)
deriving Repr

/-- JS property write on an arbitrary association list (existing key
overwritten in place, new key appended). -/
def alistSet {α : Type} (l : List (String × α)) (k : String) (v : α) :
    List (String × α) :=
  if (l.lookup k).isSome then
    l.map (fun p => if p.1 = k then (p.1, v) else p)
  else
    l ++ [(k, v)]

/-! ### Splitting a description into option segments -/

/-- JS `[a-zA-Z0-9]`. -/
def isAlnumAscii (c : Char) : Bool :=
  c.isAlpha || c.isDigit

/-- Match the bullet separator `[\s]*[-][\s]*` that must follow a
newline: the whitespace run is consumed greedily, then a dash is
required (`-` is not whitespace, so no backtracking arises), then
trailing whitespace is consumed.  Returns the remainder on a match. -/
def matchBullet (rest : List Char) : Option (List Char) :=
  match rest.dropWhile (fun c => isJsWs c) with
  | c :: r2 => if c = '-' then some (r2.dropWhile (fun c2 => isJsWs c2)) else none
  | [] => none

theorem length_dropWhile_le {α : Type} (p : α → Bool) (l : List α) :
    (l.dropWhile p).length ≤ l.length := by
  induction l with
  | nil => simp
  | cons a r ih =>
    rw [List.dropWhile_cons]
    by_cases hp : p a
    · simp only [hp, if_true]; simp only [List.length_cons]; omega
    · simp [hp]

theorem matchBullet_length {rest after : List Char}
    (h : matchBullet rest = some after) : after.length ≤ rest.length := by
  unfold matchBullet at h
  have hd : (rest.dropWhile (fun c => isJsWs c)).length ≤ rest.length :=
    length_dropWhile_le _ _
  cases hw : rest.dropWhile (fun c => isJsWs c) with
  | nil => rw [hw] at h; simp at h
  | cons c r2 =>
    rw [hw] at h hd
    have h3 : (if c = '-' then some (r2.dropWhile (fun c2 => isJsWs c2)) else none)
        = some after := h
    by_cases hc : c = '-'
    · rw [if_pos hc] at h3
      injection h3 with h3
      have h2 : (r2.dropWhile (fun c2 => isJsWs c2)).length ≤ r2.length :=
        length_dropWhile_le _ _
      rw [← h3]
      simp only [List.length_cons] at hd
      omega
    · rw [if_neg hc] at h3
      simp at h3

/-- Fuel-indexed worker for `splitBullets` (structural on the fuel so
that concrete runs reduce inside the kernel; by `matchBullet_length`
every step keeps the fuel at least the remaining length, so with the
initial fuel of `splitBullets` the exhaustion arm is unreachable). -/
def splitBulletsF : Nat → List Char → List (List Char)
  | _, [] => [[]]
  | 0, cs => [cs]
  | fuel + 1, c :: rest =>
    if c = '\n' then
      match matchBullet rest with
      | some after => [] :: splitBulletsF fuel after
      | none =>
        match splitBulletsF fuel rest with
        | [] => [[c]]
        | s :: ss => (c :: s) :: ss
    else
      match splitBulletsF fuel rest with
      | [] => [[c]]
      | s :: ss => (c :: s) :: ss

/-- Split a description on the bullet separators of the source's
`optionsRegExp` `([\n]{1}[\s]*[-]{1}[\s]*)`: the replace-then-split of
the source is one split on the matched separators. -/
def splitBullets (cs : List Char) : List (List Char) :=
  splitBulletsF cs.length cs

/-! ### Splitting a segment at its `key:` prefix

The source splits each segment on `optionKeyRegExp`
`(^[a-zA-Z0-9]*:{1})` with the `m` flag, filters out empty pieces and
destructures the first two: with the capture group, a JS split
interleaves the matched captures between the text pieces, and the `m`
flag lets `^` match after every newline inside the segment. -/

/-- Match the key pattern at one position: a maximal ASCII-alphanumeric
run (possibly empty) that is immediately followed by a colon.  Returns
the capture (run plus colon) and the remainder. -/
def keyMatchRest (cs : List Char) : Option (List Char × List Char) :=
  match cs.drop (cs.takeWhile (fun c => isAlnumAscii c)).length with
  | c :: rest =>
    if c = ':' then some ((cs.takeWhile (fun c2 => isAlnumAscii c2)) ++ [':'], rest)
    else none
  | [] => none

theorem keyMatchRest_length {cs cap after : List Char}
    (h : keyMatchRest cs = some (cap, after)) : after.length < cs.length := by
  unfold keyMatchRest at h
  have hdl : (cs.drop (cs.takeWhile (fun c => isAlnumAscii c)).length).length
      = cs.length - (cs.takeWhile (fun c => isAlnumAscii c)).length :=
    List.length_drop _ _
  cases hw : cs.drop (cs.takeWhile (fun c => isAlnumAscii c)).length with
  | nil => rw [hw] at h; simp at h
  | cons c rest =>
    rw [hw] at h hdl
    have h3 : (if c = ':' then
        some ((cs.takeWhile (fun c2 => isAlnumAscii c2)) ++ [':'], rest) else none)
        = some (cap, after) := h
    by_cases hc : c = ':'
    · rw [if_pos hc] at h3
      injection h3 with h3
      have hafter : after = rest := congrArg Prod.snd h3 |>.symm
      simp only [List.length_cons] at hdl
      rw [hafter]
      omega
    · rw [if_neg hc] at h3
      simp at h3

/-- Fuel-indexed worker for `splitKeyPieces` (structural on the fuel;
by `keyMatchRest_length` every step keeps the fuel at least the
remaining length, so with the initial fuel of `splitKeyPieces` the
exhaustion arm is unreachable). -/
def splitKeyPiecesF : Nat → List Char → Bool → List Char → List (List Char)
  | _, [], _, acc => [acc.reverse]
  | 0, cs, _, acc => [acc.reverse ++ cs]
  | fuel + 1, c :: rest, atStart, acc =>
    if atStart then
      match keyMatchRest (c :: rest) with
      | some (cap, after) => acc.reverse :: cap :: splitKeyPiecesF fuel after false []
      | none => splitKeyPiecesF fuel rest (c = '\n') (c :: acc)
    else splitKeyPiecesF fuel rest (c = '\n') (c :: acc)

/-- The piece list of the JS split: scan left to right, a match
contributing its capture as its own piece; `^` matches at position zero
and after each newline. -/
def splitKeyPieces (cs : List Char) (atStart : Bool) (acc : List Char) :
    List (List Char) :=
  splitKeyPiecesF cs.length cs atStart acc

/-- The source's `optionKeyRegExp.test(key)`: does the key pattern match
at any line start of the string? -/
def testKeyPattern : List Char → Bool → Bool
  | [], _ => false
  | c :: rest, atStart =>
    if atStart && (keyMatchRest (c :: rest)).isSome then true
    else testKeyPattern rest (c = '\n')

/-- JS `key.replace(/[:]$/, '')`. -/
def stripTrailingColon (cs : List Char) : List Char :=
  match cs.reverse with
  | c :: r => if c = ':' then r.reverse else cs
  | [] => cs

/-- One segment's `[key, value]` destructuring
(src/lib/swagger.js:409-413): split, drop empty pieces, take the first
two (either may be absent, JS `undefined`); when the key-pattern test
succeeds the key loses its trailing colon and the value is trimmed. -/
def segParse (seg : List Char) : Option String × Option String :=
  let pieces := (splitKeyPieces seg true []).filter (fun p => !p.isEmpty)
  match pieces with
  | [] => (none, none)
  | k :: restP =>
    let vOpt : Option (List Char) := restP.head?
    if testKeyPattern k true then
      (some (String.mk (stripTrailingColon k)),
       vOpt.map (fun v => String.mk (trimChars v)))
    else
      (some (String.mk k), vOpt.map (fun v => String.mk v))

/-- `optionsReducer` (src/lib/swagger.js:402): fold the bullet segments
into the accumulator object.  Composition keywords open a fresh nested
accumulator and record themselves in `level`; object keywords store
their raw value; parameter keywords *prepend* their coerced value to the
per-keyword list, at the top level or inside the open composition; any
other segment overwrites the `description` entry with its (stripped)
key text — for a segment with no pieces at all the stored value is JS
`undefined`.  Coercions run during accumulation, so their throws
surface here. -/
def optionsReducer (description : String) : Except JsError Store :=
  (splitBullets description.data).foldlM
    (fun (acc : Store) seg => do
      let kv := segParse seg
      match kv.1 with
      | none =>
        .ok { acc with entries := alistSet acc.entries "description" (.objVal none) }
      | some key =>
        let value := kv.2
        if key ∈ objectKeywords then
          if key ∈ compositionKeywords then
            .ok { level := some key, entries := alistSet acc.entries key (.nested []) }
          else
            .ok { acc with entries := alistSet acc.entries key (.objVal value) }
        else if key ∈ parameterKeywords then do
          let coerced ← kwParamCoerce key value
          match acc.level with
          | none =>
            let newList := match acc.entries.lookup key with
              | some (.paramVals old) => coerced :: old
              | _ => [coerced]
            .ok { acc with entries := alistSet acc.entries key (.paramVals newList) }
          | some lv =>
            match acc.entries.lookup lv with
            | some (.nested m) =>
              let newList := match m.lookup key with
                | some old => coerced :: old
                | none => [coerced]
              .ok { acc with entries := alistSet acc.entries lv (.nested (alistSet m key newList)) }
            | _ => .error (.typeError "no open composition accumulator")
        else
          .ok { acc with entries := alistSet acc.entries "description" (.objVal (some key)) })
    { level := none, entries := [] }

/-! ### Flattening the store: `constructOptions` -/

/-- Append one single-keyword object per accumulated variant to the
level container (src/lib/swagger.js:376-377 and 384-385): the existing
container is spread into a fresh array (absent or `undefined` starting
empty, a string spreading into its characters, anything else
non-iterable throwing). -/
def pushVariants (levelStore : List (String × Json)) (levelKey key : String)
    (vs : List Json) : Except JsError (List (String × Json)) :=
  let initE : Except JsError (List Json) :=
    match levelStore.lookup levelKey with
    | none => .ok []
    | some .undef => .ok []
    | some (.arr xs) => .ok xs
    | some (.str s) => .ok (s.data.map (fun c => Json.str (String.mk [c])))
    | some _ => .error (.typeError "not iterable")
  initE.map fun init =>
    jsSet levelStore levelKey (.arr (init ++ vs.map (fun v => Json.obj [(key, v)])))

/-- `constructOptions` applied to a nested composition accumulator,
whose entries are all parameter-keyword value lists; `level` is the
composition key for `allOf`/`anyOf`/`oneOf` recursion and `undefined`
for `not` (then single values are hoisted and several promote to
`anyOf`). -/
def flatConstruct (m : List (String × List Json)) (level : Option String) :
    Except JsError Json := do
  let levelKey := level.getD "anyOf"
  let fields ← m.foldlM
    (fun acc (p : String × List Json) =>
      if level.isSome then pushVariants acc levelKey p.1 p.2
      else match p.2 with
        | [v] => .ok (jsSet acc p.1 v)
        | vs => pushVariants acc levelKey p.1 vs)
    []
  pure (.obj fields)

/-- `constructOptions` (src/lib/swagger.js:363) at the top level: walk
the store entries in order (the reserved `level` key is our separate
field).  A parameter keyword with one accumulated value is hoisted to a
direct field, with several (or inside an open level) its variants are
pushed into the level container, `anyOf` by default; `allOf`/`anyOf`/
`oneOf` recurse into their nested accumulator and keep that key's
array; `not` recurses with no level; remaining object keywords run
their `keywordsObject` coercion (where `in` and `required` can
throw). -/
def constructOptions (store : Store) : Except JsError Json := do
  let level := store.level
  let levelKey := level.getD "anyOf"
  let fields ← store.entries.foldlM
    (fun acc (p : String × StoreVal) =>
      let key := p.1
      if key ∈ parameterKeywords then
        match p.2 with
        | .paramVals vs =>
          if level.isSome then pushVariants acc levelKey key vs
          else match vs with
            | [v] => .ok (jsSet acc key v)
            | _ => pushVariants acc levelKey key vs
        | _ => .error (.typeError "unexpected store shape")
      else if key = "allOf" || key = "anyOf" || key = "oneOf" then
        match p.2 with
        | .nested m => do
          let inner ← flatConstruct m (some key)
          .ok (jsSet acc key ((inner.get? key).getD .undef))
        | _ => .error (.typeError "unexpected store shape")
      else if key = "not" then
        match p.2 with
        | .nested m => do
          let inner ← flatConstruct m none
          .ok (jsSet acc key inner)
        | _ => .error (.typeError "unexpected store shape")
      else
        match p.2 with
        | .objVal v => do
          let coerced ← kwObjCoerce key v
          .ok (jsSet acc key coerced)
        | _ => .error (.typeError "unexpected store shape"))
    []
  pure (.obj fields)

/-! ## The document assembler -/

/-- One `@param`-style tag record as handed to `constructProperty`:
`description`, `type` (the parsed type-AST, absent on a typeless tag)
and the dotted `name`. -/
structure Param where
  description : String
  type : Option TypeAst
  name : String
deriving Repr

/-- The result record of `constructProperty`; the source's `in` field is
spelled `inLoc` (`in` is reserved in Lean). -/
structure PropertyOut where
  property : Json
  required : Bool
  inLoc : String
deriving Repr, DecidableEq

/-- The body of `constructProperty` (src/lib/swagger.js:445) after the
name destructuring: build the options from the description, validate the
location (the source's `typeof $in === 'undefined'` disjunct is
unreachable, a JS split always yields a first piece), compile the type
(a missing type crashes reading `type.type`), and report `required` as
"the node kind is not `OptionalType`".  A JS `undefined` field segment
stringifies to the object key `"undefined"`. -/
def constructPropertyWith (reg : List (String × Json)) (description : String)
    (type : Option TypeAst) (pin : String) (field : Option String) :
    Except JsError PropertyOut := do
  let store ← optionsReducer description
  let options ← constructOptions store
  if !(pin ∈ locationNames) then
    .error (.invalidLocation pin)
  else do
    let v ← match type with
      | none => .error (.typeError "reading type of undefined")
      | some t => constructPropertyType reg options t
    let required := match type with
      | some t => !(t.kindName == "OptionalType")
      | none => true
    .ok { property := .obj [(field.getD "undefined", v)],
          required := required, inLoc := pin }

/-- `constructProperty` proper: the destructuring
`const [$in, field] = name.split('.')` takes the first two dot-segments
and hands them to the body above. -/
def constructProperty (reg : List (String × Json)) (param : Param) :
    Except JsError PropertyOut :=
  constructPropertyWith reg param.description param.type
    ((jsSplit '.' param.name).headD "") ((jsSplit '.' param.name)[1]?)

/-- One doctrine tag entry of an annotation record. -/
structure TagEntry where
  title : String
  description : String
  type : Option TypeAst := none
  name : String := ""
deriving Repr

/-- One annotation record (an element of the `comments` array): the
free description plus its tag list — an annotation stream. -/
structure Comment where
  description : String
  tags : List TagEntry
deriving Repr

/-- `parseDescription` (src/lib/swagger.js:59): the record's description
with the first occurrence of the comment opener removed. -/
def parseDescription (c : Comment) : String :=
  jsReplaceFirst "/**" "" c.description

/-- `parseRoute` (src/lib/swagger.js:29): split on spaces; the method is
lower-cased with `'get'` for an empty first piece, the URI defaults to
the empty string. -/
def parseRoute (s : String) : String × String :=
  let split := jsSplit ' ' s
  let m := jsToLower (split.headD "")
  ((if m = "" then "get" else m), (split[1]?).getD "")

/-- `parseTag` (src/lib/swagger.js:65): the first `group` tag's
description split on every dash, else `['default', '']`. -/
def parseTag (tags : List TagEntry) : List String :=
  match tags.find? (fun t => t.title == "group") with
  | some t => jsSplit '-' t.description
  | none => ["default", ""]

/-- The record `fileFormat` returns. -/
structure FileFormatResult where
  paths : Json
  tags : List (String × String)
  components : List (String × Json)
deriving Repr, DecidableEq

/-- `fileFormat` (src/lib/swagger.js:472): walk the tag list in order.
A `route` tag opens the operation object under `paths[uri][method]`
(spreading any existing entry for the URI) seeded with the group tag,
empty parameters and the request body, and appends the group to the
local tag list; a `param` tag, once a route is open, runs
`constructProperty` — whose result the source then *discards* (the
attachment code, src/lib/swagger.js:532-558, is commented out), though
its errors still abort the stream; every other title's handling is
commented out in the source.  The module-global `components` is
returned alongside. -/
def fileFormat (reg : List (String × Json)) (c : Comment) :
    Except JsError FileFormatResult := do
  let desc := parseDescription c
  let st ← c.tags.foldlM
    (fun (st : Option (String × String) × Json × List (String × String)) tg => do
      let route := st.1
      let paths := st.2.1
      let tagsAcc := st.2.2
      if tg.title == "route" then
        let r := parseRoute tg.description
        let tag := parseTag c.tags
        let op : Json := .obj [
          ("tags", .arr [.str (jsTrim (tag.headD ""))]),
          ("parameters", .arr []),
          ("requestBody", .obj [("description", .str desc), ("content", .obj [])])]
        let prev : List (String × Json) :=
          match paths.get? r.2 with
          | some pv => spreadFields pv
          | none => []
        let entry : Json := .obj (jsSetMany prev [(r.1, op)])
        let paths2 := match paths with
          | .obj fs => Json.obj (jsSet fs r.2 entry)
          | other => other
        let tagName := jsTrim (tag.headD "")
        let tagDesc := match tag[1]? with
          | some s => jsTrim s
          | none => ""
        .ok (some r, paths2, tagsAcc ++ [(tagName, tagDesc)])
      else if tg.title == "param" && route.isSome then do
        _ ← constructProperty reg
          { description := tg.description, type := tg.type, name := tg.name }
        .ok (route, paths, tagsAcc)
      else
        .ok (route, paths, tagsAcc))
    (none, Json.obj [], [])
  pure { paths := st.2.1, tags := st.2.2, components := reg }

/-- `buildOpenAPI3Base` of the helper module: every section comes from
the configuration, defaulting to `{}` when falsy. -/
def buildOpenAPI3Base (configuration : Json) : Json :=
  .obj [
    ("openapi", .str "3.0.1"),
    ("info", match configuration.get? "info" with
      | some v => if jsTruthy v then v else .obj []
      | none => .obj []),
    ("servers", match configuration.get? "servers" with
      | some v => if jsTruthy v then v else .obj []
      | none => .obj []),
    ("tags", match configuration.get? "tags" with
      | some v => if jsTruthy v then v else .obj []
      | none => .obj []),
    ("paths", match configuration.get? "paths" with
      | some v => if jsTruthy v then v else .obj []
      | none => .obj []),
    ("components", match configuration.get? "components" with
      | some v => if jsTruthy v then v else .obj []
      | none => .obj [])]

/-- The per-stream loop of `generateSpecAndMount`
(src/lib/swagger.js:653-665): each stream is formatted inside a
`try/catch`; on success its paths fragment is deep-merged into the
accumulated paths, on any error the stream is skipped (the error is
logged) and processing continues with the next stream. -/
def processStreams (reg : List (String × Json)) (paths : Json) :
    List Comment → Json
  | [] => paths
  | s :: rest =>
    match fileFormat reg s with
    | .ok r => processStreams reg (deepmerge paths r.paths) rest
    | .error _ => processStreams reg paths rest

/-- `generateSpecAndMount` (src/lib/swagger.js:623) after its input
validation and file enumeration (external concerns): build the base
document, install the Schema Registry reflected from the models (the
reflection collaborator `buildFromSequelize` is consumed at its
interface — `schemas` is the already-reflected registry, merged over the
module-global store that is empty at run start), then fold every
annotation stream of every file into `paths`.  Note that each stream's
`tags` list is destructured from the `fileFormat` result but never used:
the document's `tags` section stays whatever the configuration
supplied. -/
def generateSpecAndMount (schemas : List (String × Json))
    (definition : Json) (streams : List Comment) : Json :=
  let base := buildOpenAPI3Base definition
  let base2 := match base with
    | .obj bf =>
      match jsGet bf "components" with
      | some (.obj cf) =>
        Json.obj (jsSet bf "components" (.obj (jsSet cf "schemas" (.obj schemas))))
      | _ => Json.obj bf
    | b => b
  match base2 with
  | .obj bf =>
    Json.obj (jsSet bf "paths"
      (processStreams schemas ((jsGet bf "paths").getD .undef) streams))
  | b => b

/-! ## Concrete inputs used by the claims -/

/-- The registry of the C1 scenario (no models are needed). -/
def c1Registry : List (String × Json) := []

/-- The `@param {string} query.name.required - filter` tag record. -/
def c1Param : Param :=
  { description := "filter", type := some (.nameExpression "string"),
    name := "query.name.required" }

/-- The C1 annotation stream:
`@route GET /users`, `@group foo - desc`,
`@param {string} query.name.required - filter`. -/
def c1Stream : Comment :=
  { description := "",
    tags := [
      { title := "route", description := "GET /users" },
      { title := "group", description := "foo - desc" },
      { title := "param", description := "filter",
        type := some (.nameExpression "string"), name := "query.name.required" }] }

/-- The operation object the C1 stream opens under
`paths["/users"]["get"]`. -/
def c1Operation : Json :=
  .obj [("tags", .arr [.str "foo"]),
        ("parameters", .arr []),
        ("requestBody", .obj [("description", .str ""), ("content", .obj [])])]

/-- A stream registering the group tag `foo - A`. -/
def c2StreamA : Comment :=
  { description := "",
    tags := [{ title := "route", description := "GET /a" },
             { title := "group", description := "foo - A" }] }

/-- A later stream registering the group tag `foo - B`. -/
def c2StreamB : Comment :=
  { description := "",
    tags := [{ title := "route", description := "GET /b" },
             { title := "group", description := "foo - B" }] }

/-- A base configuration whose tag catalog starts empty. -/
def c2Definition : Json := .obj [("tags", .arr [])]

/-- The path-item fragment the C1 stream assembles — a fragment with a
non-empty array leaf (`tags`). -/
def c3Fragment : Json := .obj [("/users", .obj [("get", c1Operation)])]

/-- The C4 description: `minimum: 5` then a bulleted `minimum: 1`, with
no composition keyword open. -/
def c4Description : String := "minimum: 5\n- minimum: 1"

/-- A registry with one model (`Point`) for the C6 scenario. -/
def c6Registry : List (String × Json) :=
  [("Point", .obj [("properties", .obj [("x", .obj [("type", .str "integer")])])])]

/-- A well-formed stream documenting `GET /points`. -/
def c6GoodStream : Comment :=
  { description := "",
    tags := [{ title := "route", description := "GET /points" },
             { title := "group", description := "points - ops" }] }

/-- A second well-formed stream documenting `GET /health`. -/
def c6OtherStream : Comment :=
  { description := "",
    tags := [{ title := "route", description := "GET /health" }] }

/-- The C6 failing stream: a `param` whose type references the
unresolvable `Unknown.model`. -/
def c6BadStream : Comment :=
  { description := "",
    tags := [{ title := "route", description := "POST /bad" },
             { title := "param", description := "the new point",
               type := some (.nameExpression "Unknown.model"),
               name := "body.point.required" }] }

/-- The registry used by the C5 witness. -/
def c5Registry : List (String × Json) :=
  [("User", .obj [("properties", .obj [("id", .obj [("type", .str "integer")])])])]

/-- The C10 param with a trailing `.required` suffix. -/
def c10Param : Param :=
  { description := "filter", type := some (.nameExpression "string"),
    name := "query.name.required" }

/-- The record `constructProperty` yields for `c10Param`. -/
def c10Out : PropertyOut :=
  { property := .obj [("name", .obj [("type", .str "string")])],
    required := true, inLoc := "query" }

/-- Is a registry schema shaped as the reflection collaborator produces
it: a `properties` object all of whose values are defined?  (Resolving a
property of a schema outside this shape hits the source's `TypeError`
paths instead of its named errors.) -/
def schemaWf (schema : Json) : Bool :=
  match schema.get? "properties" with
  | some (.obj props) => props.all fun q =>
      match q.2 with
      | .undef => false
      | _ => true
  | _ => false

/-- Every schema of the registry is well-shaped. -/
def registryWf (reg : List (String × Json)) : Bool :=
  reg.all fun p => schemaWf p.2

/-- Keys of one association-list layer are pairwise distinct. -/
def keysNodup : List (String × Json) → Bool
  | [] => true
  | (k, _) :: fs => (jsGet fs k).isNone && keysNodup fs

mutual

/-- Structural size of a value. -/
def jsize : Json → Nat
  | .arr es => jsizeL es + 1
  | .obj fs => jsizeF fs + 1
  | _ => 1

/-- Structural size of an element list. -/
def jsizeL : List Json → Nat
  | [] => 0
  | v :: vs => jsize v + jsizeL vs

/-- Structural size of a field list. -/
def jsizeF : List (String × Json) → Nat
  | [] => 0
  | (_, v) :: fs => jsize v + jsizeF fs

end

mutual

/-- Every object layer inside the value has pairwise-distinct keys. -/
def wfKeys : Json → Bool
  | .arr es => wfKeysL es
  | .obj fs => keysNodup fs && wfKeysF fs
  | _ => true

/-- `wfKeys` over an element list. -/
def wfKeysL : List Json → Bool
  | [] => true
  | v :: vs => wfKeys v && wfKeysL vs

/-- `wfKeys` over the values of a field list. -/
def wfKeysF : List (String × Json) → Bool
  | [] => true
  | (_, v) :: fs => wfKeys v && wfKeysF fs

end

mutual

/-- Every array inside the value is empty. -/
def emptyArrs : Json → Bool
  | .arr [] => true
  | .arr (_ :: _) => false
  | .obj fs => emptyArrsF fs
  | _ => true

/-- `emptyArrs` over the values of a field list. -/
def emptyArrsF : List (String × Json) → Bool
  | [] => true
  | (_, v) :: fs => emptyArrs v && emptyArrsF fs

end

/-- The value deepmerge's `mergeObject` loop stores at a source key `k`:
recursively merged when the target also has `k` and the source value is
mergeable, the source value itself otherwise. -/
def mfVal (t : Json) (k : String) (v : Json) : Json :=
  if (Json.get? t k).isSome && isMergeable v then
    deepmerge ((Json.get? t k).getD .undef) v
  else v

/-- Is the value an array? -/
def isArr : Json → Bool
  | .arr _ => true
  | _ => false

/-- A path-item fragment all of whose arrays are empty (as produced for a
route whose operation gets no group tags and, the attachment being
commented out, no parameters), witnessing the amended idempotence
statement. -/
def c3EmptyFragment : Json :=
  .obj [("/users", .obj [("get", .obj
    [("tags", .arr []),
     ("parameters", .arr []),
     ("requestBody", .obj [("description", .str "d"), ("content", .obj [])])])])]

/-! ## Supporting lemmas -/

theorem mem_of_lookup {α : Type} {l : List (String × α)} {k : String} {v : α}
    (h : l.lookup k = some v) : (k, v) ∈ l := by
  induction l with
  | nil => simp [List.lookup] at h
  | cons hd rest ih =>
    obtain ⟨k1, v1⟩ := hd
    cases hbeq : (k == k1) with
    | true =>
      have hk : k = k1 := eq_of_beq hbeq
      have h2 : some v1 = some v := by
        have h3 : (match k == k1 with
          | true => some v1
          | false => rest.lookup k) = some v := h
        rw [hbeq] at h3
        exact h3
      injection h2 with h2
      simp [hk, h2]
    | false =>
      have h2 : rest.lookup k = some v := by
        have h3 : (match k == k1 with
          | true => some v1
          | false => rest.lookup k) = some v := h
        rw [hbeq] at h3
        exact h3
      exact List.mem_cons_of_mem _ (ih h2)

theorem processStreams_skip {reg : List (String × Json)} {s : Comment}
    {e : JsError} (he : fileFormat reg s = .error e) :
    ∀ (pre post : List Comment) (D : Json),
      processStreams reg D (pre ++ s :: post) = processStreams reg D (pre ++ post) := by
  intro pre
  induction pre with
  | nil =>
    intro post D
    simp only [List.nil_append, processStreams, he]
  | cons a pre ih =>
    intro post D
    simp only [List.cons_append, processStreams]
    cases fileFormat reg a with
    | ok r => exact ih post (deepmerge D r.paths)
    | error e2 => exact ih post D

theorem take2_components {l1 l2 : List String} (h : l1.take 2 = l2.take 2) :
    l1.headD "" = l2.headD "" ∧ l1[1]? = l2[1]? := by
  have h1 := congrArg (fun l => l[1]?) h
  simp only [List.getElem?_take] at h1
  norm_num at h1
  refine ⟨?_, h1⟩
  have h0 := congrArg (fun l => l[0]?) h
  simp only [List.getElem?_take] at h0
  norm_num at h0
  cases l1 <;> cases l2 <;> simp_all

/-! ### Association-list lemmas for the deepmerge analysis -/

theorem jsGet_cons (k1 : String) (v1 : Json) (rest : List (String × Json))
    (k : String) :
    jsGet ((k1, v1) :: rest) k = if k = k1 then some v1 else jsGet rest k := by
  cases hb : (k == k1) with
  | true =>
    have h : jsGet ((k1, v1) :: rest) k
        = (match k == k1 with | true => some v1 | false => rest.lookup k) := rfl
    rw [h, hb, if_pos (eq_of_beq hb)]
  | false =>
    have h : jsGet ((k1, v1) :: rest) k
        = (match k == k1 with | true => some v1 | false => rest.lookup k) := rfl
    have hne : ¬ (k = k1) := fun he => by subst he; simp at hb
    rw [h, hb, if_neg hne]
    rfl

theorem jsGet_append (X Y : List (String × Json)) (k : String) :
    jsGet (X ++ Y) k = ((jsGet X k).or (jsGet Y k)) := by
  induction X with
  | nil => rfl
  | cons p rest ih =>
    obtain ⟨k1, v1⟩ := p
    by_cases hk : k = k1
    · rw [List.cons_append, jsGet_cons, jsGet_cons, if_pos hk, if_pos hk]
      rfl
    · rw [List.cons_append, jsGet_cons, jsGet_cons, if_neg hk, if_neg hk, ih]

theorem jsGet_map_set (k : String) (v : Json) :
    ∀ (X : List (String × Json)) (kq : String),
      jsGet (X.map (fun p => if p.1 = k then (p.1, v) else p)) kq
        = if kq = k then (jsGet X kq).map (fun _ => v) else jsGet X kq := by
  intro X
  induction X with
  | nil =>
    intro kq
    by_cases h : kq = k <;> simp [h, jsGet, List.lookup]
  | cons p rest ih =>
    obtain ⟨k1, v1⟩ := p
    intro kq
    simp only [List.map_cons]
    by_cases h1 : k1 = k
    · by_cases h2 : kq = k1
      · simp [h1, h2, jsGet_cons]
      · have hqk : ¬ (kq = k) := fun h => h2 (h.trans h1.symm)
        simp [h1, h2, hqk, jsGet_cons, ih]
    · by_cases h2 : kq = k1
      · have hqk : ¬ (kq = k) := fun h => h1 (h2.symm.trans h)
        simp [h1, h2, hqk, jsGet_cons]
      · simp [h1, h2, jsGet_cons, ih]

theorem jsSet_of_none {X : List (String × Json)} {k : String} (v : Json)
    (h : jsGet X k = none) : jsSet X k v = X ++ [(k, v)] := by
  simp [jsSet, h]

theorem jsGet_jsSet_self (X : List (String × Json)) (k : String) (v : Json) :
    jsGet (jsSet X k v) k = some v := by
  cases hg : jsGet X k with
  | some w => simp [jsSet, hg, jsGet_map_set]
  | none =>
    rw [jsSet_of_none v hg, jsGet_append, hg, jsGet_cons, if_pos rfl]
    rfl

theorem jsGet_jsSet_ne (X : List (String × Json)) (k : String) (v : Json)
    (kq : String) (h : ¬ (kq = k)) : jsGet (jsSet X k v) kq = jsGet X kq := by
  cases hg : jsGet X k with
  | some w => simp [jsSet, hg, jsGet_map_set, h]
  | none =>
    rw [jsSet_of_none v hg, jsGet_append, jsGet_cons, if_neg h]
    cases jsGet X kq <;> rfl

theorem jsGet_isSome_of_mem :
    ∀ {X : List (String × Json)} {k : String} {v : Json},
      (k, v) ∈ X → (jsGet X k).isSome = true := by
  intro X
  induction X with
  | nil => intro k v h; simp at h
  | cons p rest ih =>
    obtain ⟨k1, v1⟩ := p
    intro k v h
    rw [jsGet_cons]
    by_cases hk : k = k1
    · rw [if_pos hk]; rfl
    · rw [if_neg hk]
      rcases List.mem_cons.mp h with h1 | h1
      · exact absurd (congrArg Prod.fst h1) hk
      · exact ih h1

theorem jsGet_none_forall {X : List (String × Json)} {k : String}
    (h : jsGet X k = none) : ∀ p ∈ X, ¬ (p.1 = k) := by
  intro p hp hpk
  obtain ⟨k1, v1⟩ := p
  have h1 : (k, v1) ∈ X := by
    have : k1 = k := hpk
    rw [← this]
    exact hp
  have h2 := jsGet_isSome_of_mem h1
  rw [h] at h2
  simp at h2

theorem jsSet_eq_self :
    ∀ {X : List (String × Json)} {k : String} {v : Json},
      keysNodup X = true → jsGet X k = some v → jsSet X k v = X := by
  intro X
  induction X with
  | nil => intro k v _ h; simp [jsGet, List.lookup] at h
  | cons p rest ih =>
    obtain ⟨k1, v1⟩ := p
    intro k v hn h
    simp only [keysNodup, Bool.and_eq_true] at hn
    have hmap : jsSet ((k1, v1) :: rest) k v
        = ((k1, v1) :: rest).map (fun p => if p.1 = k then (p.1, v) else p) := by
      simp [jsSet, h]
    rw [hmap, List.map_cons]
    rw [jsGet_cons] at h
    by_cases hk : k = k1
    · rw [if_pos hk] at h
      injection h with hv
      have hnone : jsGet rest k = none := by
        rw [hk]
        exact Option.isNone_iff_eq_none.mp hn.1
      have hrest : rest.map (fun p => if p.1 = k then (p.1, v) else p) = rest := by
        have hmc : ∀ p ∈ rest, (if p.1 = k then (p.1, v) else p) = p := by
          intro p hp
          exact if_neg (jsGet_none_forall hnone p hp)
        rw [List.map_congr_left hmc]
        simp
      rw [hrest]
      have hhd : (if k1 = k then (k1, v) else (k1, v1)) = (k1, v1) := by
        rw [if_pos hk.symm, hv]
      rw [hhd]
    · rw [if_neg hk] at h
      have hhd : (if k1 = k then (k1, v) else (k1, v1)) = (k1, v1) :=
        if_neg (fun he => hk he.symm)
      rw [hhd]
      have hrest := ih hn.2 h
      have hmap2 : jsSet rest k v
          = rest.map (fun p => if p.1 = k then (p.1, v) else p) := by
        simp [jsSet, h]
      rw [← hmap2, hrest]

theorem keysNodup_map_set (k : String) (v : Json) :
    ∀ X : List (String × Json),
      keysNodup (X.map (fun p => if p.1 = k then (p.1, v) else p))
        = keysNodup X := by
  intro X
  induction X with
  | nil => rfl
  | cons p rest ih =>
    obtain ⟨k1, v1⟩ := p
    simp only [List.map_cons]
    by_cases h1 : k1 = k
    · rw [if_pos h1]
      simp only [keysNodup]
      rw [jsGet_map_set, ih, if_pos h1]
      cases hgr : jsGet rest k1 <;> simp
    · rw [if_neg h1]
      simp only [keysNodup]
      rw [jsGet_map_set, ih, if_neg h1]

theorem keysNodup_append_one :
    ∀ (X : List (String × Json)) (k : String) (v : Json),
      keysNodup X = true → jsGet X k = none →
      keysNodup (X ++ [(k, v)]) = true := by
  intro X
  induction X with
  | nil => intro k v _ _; simp [keysNodup, jsGet, List.lookup]
  | cons p rest ih =>
    obtain ⟨k1, v1⟩ := p
    intro k v hn hg
    simp only [keysNodup, Bool.and_eq_true] at hn
    rw [jsGet_cons] at hg
    by_cases hk : k = k1
    · rw [if_pos hk] at hg
      exact absurd hg (by simp)
    · rw [if_neg hk] at hg
      simp only [List.cons_append, keysNodup, Bool.and_eq_true]
      constructor
      · show (jsGet (rest ++ [(k, v)]) k1).isNone = true
        rw [jsGet_append, Option.isNone_iff_eq_none.mp hn.1]
        rw [jsGet_cons, if_neg (fun he => hk he.symm)]
        rfl
      · exact ih k v hn.2 hg

theorem keysNodup_jsSet (X : List (String × Json)) (k : String) (v : Json)
    (hn : keysNodup X = true) : keysNodup (jsSet X k v) = true := by
  cases hg : jsGet X k with
  | some w =>
    have hmap : jsSet X k v
        = X.map (fun p => if p.1 = k then (p.1, v) else p) := by
      simp [jsSet, hg]
    rw [hmap, keysNodup_map_set]
    exact hn
  | none =>
    have happ : jsSet X k v = X ++ [(k, v)] := by simp [jsSet, hg]
    rw [happ]
    exact keysNodup_append_one X k v hn hg

/-! ### The mergeObject loop, layer by layer -/

theorem mergeFields_cons (t : Json) (dest : List (String × Json))
    (k : String) (v : Json) (rest : List (String × Json)) :
    mergeFields t dest ((k, v) :: rest)
      = mergeFields t (jsSet dest k (mfVal t k v)) rest := rfl

theorem jsGet_mergeFields_of_none (t : Json) :
    ∀ (ss X : List (String × Json)) (k : String), jsGet ss k = none →
      jsGet (mergeFields t X ss) k = jsGet X k := by
  intro ss
  induction ss with
  | nil => intro X k _; rfl
  | cons p rest ih =>
    obtain ⟨k1, v1⟩ := p
    intro X k h
    rw [jsGet_cons] at h
    by_cases hk : k = k1
    · rw [if_pos hk] at h
      exact absurd h (by simp)
    · rw [if_neg hk] at h
      rw [mergeFields_cons, ih _ k h]
      exact jsGet_jsSet_ne X k1 (mfVal t k1 v1) k hk

theorem jsGet_mergeFields_some (t : Json) :
    ∀ (ss X : List (String × Json)) (k : String) (v : Json),
      keysNodup ss = true → jsGet ss k = some v →
      jsGet (mergeFields t X ss) k = some (mfVal t k v) := by
  intro ss
  induction ss with
  | nil => intro X k v _ h; simp [jsGet, List.lookup] at h
  | cons p rest ih =>
    obtain ⟨k1, v1⟩ := p
    intro X k v hn h
    simp only [keysNodup, Bool.and_eq_true] at hn
    rw [jsGet_cons] at h
    rw [mergeFields_cons]
    by_cases hk : k = k1
    · rw [if_pos hk] at h
      injection h with hv
      have hrest : jsGet rest k = none := by
        rw [hk]
        exact Option.isNone_iff_eq_none.mp hn.1
      rw [jsGet_mergeFields_of_none t rest _ k hrest, hk, jsGet_jsSet_self, hv]
    · rw [if_neg hk] at h
      exact ih _ k v hn.2 h

theorem keysNodup_mergeFields (t : Json) :
    ∀ (ss X : List (String × Json)), keysNodup X = true →
      keysNodup (mergeFields t X ss) = true := by
  intro ss
  induction ss with
  | nil => intro X h; exact h
  | cons p rest ih =>
    obtain ⟨k1, v1⟩ := p
    intro X h
    rw [mergeFields_cons]
    exact ih _ (keysNodup_jsSet X k1 _ h)

theorem mergeFields_fix (t : Json) :
    ∀ (ss X : List (String × Json)), keysNodup ss = true →
      keysNodup X = true →
      (∀ k v, jsGet ss k = some v → jsGet X k = some (mfVal t k v)) →
      mergeFields t X ss = X := by
  intro ss
  induction ss with
  | nil => intro X _ _ _; rfl
  | cons p rest ih =>
    obtain ⟨k1, v1⟩ := p
    intro X hns hnX hl
    simp only [keysNodup, Bool.and_eq_true] at hns
    have h1 : jsGet X k1 = some (mfVal t k1 v1) := by
      apply hl
      rw [jsGet_cons, if_pos rfl]
    rw [mergeFields_cons, jsSet_eq_self hnX h1]
    apply ih X hns.2 hnX
    intro k v hkv
    apply hl
    rw [jsGet_cons]
    by_cases hk : k = k1
    · exfalso
      rw [hk, Option.isNone_iff_eq_none.mp hns.1] at hkv
      exact Option.noConfusion hkv
    · rw [if_neg hk]
      exact hkv

theorem jsSetMany_fresh :
    ∀ (ss X : List (String × Json)), keysNodup ss = true →
      (∀ k v, jsGet ss k = some v → jsGet X k = none) →
      jsSetMany X ss = X ++ ss := by
  intro ss
  induction ss with
  | nil => intro X _ _; simp [jsSetMany]
  | cons p rest ih =>
    obtain ⟨k1, v1⟩ := p
    intro X hns hf
    simp only [keysNodup, Bool.and_eq_true] at hns
    have h0 : jsGet X k1 = none := hf k1 v1 (by rw [jsGet_cons, if_pos rfl])
    have h1 : jsSetMany X ((k1, v1) :: rest)
        = jsSetMany (jsSet X k1 v1) rest := rfl
    rw [h1, jsSet_of_none v1 h0]
    rw [ih (X ++ [(k1, v1)]) hns.2 ?_]
    · simp
    · intro k v hkv
      have hkk : ¬ (k = k1) := by
        intro he
        rw [he, Option.isNone_iff_eq_none.mp hns.1] at hkv
        exact Option.noConfusion hkv
      have hXk : jsGet X k = none :=
        hf k v (by rw [jsGet_cons, if_neg hkk]; exact hkv)
      rw [jsGet_append, hXk, jsGet_cons, if_neg hkk]
      rfl

/-! ### Deepmerge idempotence on the program's value shapes -/

theorem deepmerge_obj_obj (X ss : List (String × Json)) :
    deepmerge (.obj X) (.obj ss) = .obj (mergeFields (.obj X) X ss) := rfl

theorem deepmerge_nonarr_obj {d : Json} (h : isArr d = false)
    (ss : List (String × Json)) :
    deepmerge d (.obj ss) = .obj (mergeFields d (destInit d) ss) := by
  cases d with
  | arr xs => simp [isArr] at h
  | str s => rfl
  | num q => rfl
  | nan => rfl
  | bool b => rfl
  | null => rfl
  | undef => rfl
  | obj fs => rfl

theorem mergeFields_emptyObj :
    ∀ (ss X : List (String × Json)),
      mergeFields (.obj []) X ss = jsSetMany X ss := by
  intro ss
  induction ss with
  | nil => intro X; rfl
  | cons p rest ih =>
    obtain ⟨k1, v1⟩ := p
    intro X
    rw [mergeFields_cons]
    have hv : mfVal (.obj []) k1 v1 = v1 := by
      simp [mfVal, Json.get?, jsGet, List.lookup]
    rw [hv]
    exact ih (jsSet X k1 v1)

theorem deepmerge_emptyObj {v : Json} (hm : isMergeable v = true)
    (hw : wfKeys v = true) : deepmerge (.obj []) v = v := by
  cases v with
  | arr es => rfl
  | obj vs =>
    rw [deepmerge_obj_obj, mergeFields_emptyObj]
    have hn : keysNodup vs = true := by
      simp only [wfKeys, Bool.and_eq_true] at hw
      exact hw.1
    rw [jsSetMany_fresh vs [] hn (fun k v _ => rfl)]
    rfl
  | str s => simp [isMergeable] at hm
  | num q => simp [isMergeable] at hm
  | nan => simp [isMergeable] at hm
  | bool b => simp [isMergeable] at hm
  | null => simp [isMergeable] at hm
  | undef => simp [isMergeable] at hm

theorem wfKeysF_val :
    ∀ (fs : List (String × Json)) (k : String) (v : Json),
      wfKeysF fs = true → jsGet fs k = some v → wfKeys v = true := by
  intro fs
  induction fs with
  | nil => intro k v _ h; simp [jsGet, List.lookup] at h
  | cons p rest ih =>
    obtain ⟨k1, v1⟩ := p
    intro k v hw h
    simp only [wfKeysF, Bool.and_eq_true] at hw
    rw [jsGet_cons] at h
    by_cases hk : k = k1
    · rw [if_pos hk] at h
      injection h with h
      rw [← h]
      exact hw.1
    · rw [if_neg hk] at h
      exact ih k v hw.2 h

theorem emptyArrsF_val :
    ∀ (fs : List (String × Json)) (k : String) (v : Json),
      emptyArrsF fs = true → jsGet fs k = some v → emptyArrs v = true := by
  intro fs
  induction fs with
  | nil => intro k v _ h; simp [jsGet, List.lookup] at h
  | cons p rest ih =>
    obtain ⟨k1, v1⟩ := p
    intro k v he h
    simp only [emptyArrsF, Bool.and_eq_true] at he
    rw [jsGet_cons] at h
    by_cases hk : k = k1
    · rw [if_pos hk] at h
      injection h with h
      rw [← h]
      exact he.1
    · rw [if_neg hk] at h
      exact ih k v he.2 h

theorem jsizeF_val :
    ∀ (fs : List (String × Json)) (k : String) (v : Json),
      jsGet fs k = some v → jsize v ≤ jsizeF fs := by
  intro fs
  induction fs with
  | nil => intro k v h; simp [jsGet, List.lookup] at h
  | cons p rest ih =>
    obtain ⟨k1, v1⟩ := p
    intro k v h
    simp only [jsizeF]
    rw [jsGet_cons] at h
    by_cases hk : k = k1
    · rw [if_pos hk] at h
      injection h with h
      rw [← h]
      exact Nat.le_add_right _ _
    · rw [if_neg hk] at h
      exact Nat.le_trans (ih k v h) (Nat.le_add_left _ _)

theorem wfKeys_get {d : Json} {k : String} {w : Json} (hd : wfKeys d = true)
    (h : Json.get? d k = some w) : wfKeys w = true := by
  cases d
  case obj fs =>
    simp only [wfKeys, Bool.and_eq_true] at hd
    exact wfKeysF_val fs k w hd.2 h
  all_goals exact Option.noConfusion h

theorem jsize_pos : ∀ f : Json, 1 ≤ jsize f := by
  intro f
  cases f <;> simp only [jsize] <;> omega

theorem deepmerge_idem_aux :
    ∀ (n : Nat) (f : Json), jsize f ≤ n → isMergeable f = true →
      wfKeys f = true → emptyArrs f = true →
      ∀ d : Json, wfKeys d = true →
        deepmerge (deepmerge d f) f = deepmerge d f := by
  intro n
  induction n with
  | zero =>
    intro f hsz
    have := jsize_pos f
    omega
  | succ n ih =>
    intro f hsz hm hw he d hd
    cases f
    case arr es =>
      cases es with
      | cons e es2 => simp [emptyArrs] at he
      | nil =>
        cases d
        case arr xs =>
          have h1 : deepmerge (.arr xs) (.arr []) = .arr xs := by
            show Json.arr (xs ++ []) = .arr xs
            rw [List.append_nil]
          rw [h1]
          exact h1
        all_goals rfl
    case obj fs =>
      have hnfs : keysNodup fs = true ∧ wfKeysF fs = true := by
        simp only [wfKeys, Bool.and_eq_true] at hw
        exact hw
      have heF : emptyArrsF fs = true := by
        simp only [emptyArrs] at he
        exact he
      have hszF : jsizeF fs ≤ n := by
        simp only [jsize] at hsz
        omega
      have hfield : ∀ k v, jsGet fs k = some v → isMergeable v = true →
          deepmerge v v = v ∧
          ∀ w, wfKeys w = true → deepmerge (deepmerge w v) v = deepmerge w v := by
        intro k v hkv hmv
        have hwv : wfKeys v = true := wfKeysF_val fs k v hnfs.2 hkv
        have hev : emptyArrs v = true := emptyArrsF_val fs k v heF hkv
        have hszv : jsize v ≤ n := Nat.le_trans (jsizeF_val fs k v hkv) hszF
        have hIH : ∀ w, wfKeys w = true →
            deepmerge (deepmerge w v) v = deepmerge w v :=
          fun w hww => ih v hszv hmv hwv hev w hww
        refine ⟨?_, hIH⟩
        have h0 := hIH (.obj []) rfl
        rw [deepmerge_emptyObj hmv hwv] at h0
        exact h0
      have main : ∀ d2 : Json, isArr d2 = false → wfKeys d2 = true →
          deepmerge (deepmerge d2 (.obj fs)) (.obj fs)
            = deepmerge d2 (.obj fs) := by
        intro d2 hna hd2
        rw [deepmerge_nonarr_obj hna]
        have hX0 : keysNodup (destInit d2) = true := by
          cases d2
          case obj gs =>
            simp only [wfKeys, Bool.and_eq_true] at hd2
            exact hd2.1
          all_goals rfl
        have hnX : keysNodup (mergeFields d2 (destInit d2) fs) = true :=
          keysNodup_mergeFields d2 fs (destInit d2) hX0
        rw [deepmerge_obj_obj]
        refine congrArg Json.obj ?_
        apply mergeFields_fix _ fs _ hnfs.1 hnX
        intro k v hkv
        rw [jsGet_mergeFields_some d2 fs (destInit d2) k v hnfs.1 hkv]
        have hgM : Json.get? (.obj (mergeFields d2 (destInit d2) fs)) k
            = some (mfVal d2 k v) :=
          jsGet_mergeFields_some d2 fs (destInit d2) k v hnfs.1 hkv
        cases hmv : isMergeable v with
        | false => simp [mfVal, hmv]
        | true =>
          have h6 : mfVal (.obj (mergeFields d2 (destInit d2) fs)) k v
              = deepmerge (mfVal d2 k v) v := by
            simp only [mfVal, hgM, hmv, Option.isSome_some, Bool.and_self,
              if_true, Option.getD_some]
          cases hgd : Json.get? d2 k with
          | some w =>
            have hww : wfKeys w = true := wfKeys_get hd2 hgd
            have h5 : mfVal d2 k v = deepmerge w v := by
              simp [mfVal, hmv, hgd]
            rw [h6, h5, (hfield k v hkv hmv).2 w hww]
          | none =>
            have h5 : mfVal d2 k v = v := by
              simp [mfVal, hgd]
            rw [h6, h5, (hfield k v hkv hmv).1]
      cases d
      case arr xs =>
        have h1 : deepmerge (.arr xs) (.obj fs) = .obj fs := rfl
        rw [h1]
        rw [deepmerge_obj_obj]
        refine congrArg Json.obj ?_
        apply mergeFields_fix _ fs fs hnfs.1 hnfs.1
        intro k v hkv
        rw [hkv]
        have hcase : mfVal (.obj fs) k v = v := by
          cases hmv : isMergeable v with
          | false => simp [mfVal, hmv]
          | true =>
            have hg : Json.get? (.obj fs) k = some v := hkv
            simp only [mfVal, hg, hmv, Option.isSome_some, Bool.and_self,
              if_true, Option.getD_some]
            exact (hfield k v hkv hmv).1
        rw [hcase]
      all_goals exact main _ rfl hd
    all_goals simp [isMergeable] at hm

/-! ## The claims -/

/-- C1: for the annotation stream `@route GET /users`, `@group foo -
desc`, `@param {string} query.name.required - filter`, the assembled
document does have `paths["/users"]["get"].tags = ["foo"]`, and
`constructProperty` does compile the query parameter `name` with
`required: true` and schema `{type: "string"}` — but the source discards
that descriptor (the attachment code is commented out), so the
operation's `parameters` list stays empty instead of carrying the
parameter.  This theorem evaluates the code at the claim's input,
exhibiting both the computed descriptor and the empty `parameters`. -/
theorem claim1_param_scenario_paths :
    fileFormat c1Registry c1Stream = .ok
      { paths := .obj [("/users", .obj [("get", c1Operation)])],
        tags := [("foo", "desc")],
        components := [] }
    ∧ c1Operation.get? "tags" = some (.arr [.str "foo"])
    ∧ c1Operation.get? "parameters" = some (.arr [])
    ∧ constructProperty c1Registry c1Param = .ok
      { property := .obj [("name", .obj [("type", .str "string")])],
        required := true, inLoc := "query" } := by
  refine ⟨by decide, by decide, by decide, by decide⟩

/-- C2: registering `{name: foo, description: A}` and later
`{name: foo, description: B}` does *not* yield one deduplicated catalog
entry: `fileFormat` computes a per-stream tag list (each stream its own
`foo` entry, no deduplication anywhere), and `generateSpecAndMount`
discards those lists entirely — the assembled document's `tags` section
stays the configuration's value, here `[]`, with no `foo` entry at
all. -/
theorem claim2_tag_catalog_discarded :
    (generateSpecAndMount [] c2Definition [c2StreamA, c2StreamB]).get? "tags"
      = some (.arr [])
    ∧ (fileFormat [] c2StreamA).map FileFormatResult.tags = .ok [("foo", "A")]
    ∧ (fileFormat [] c2StreamB).map FileFormatResult.tags = .ok [("foo", "B")] := by
  refine ⟨by decide, by decide, by decide⟩

/-- C3 (counterexample): merging the same path-item fragment into the
document tree twice is *not* idempotent — the npm deepmerge dependency
concatenates arrays, so the second merge duplicates the operation's
`tags` entry: the `/users`-`get` operation ends with
`tags: [foo, foo]`. -/
theorem claim3_merge_twice_duplicates_tags :
    deepmerge (deepmerge (Json.obj []) c3Fragment) c3Fragment
        ≠ deepmerge (Json.obj []) c3Fragment
    ∧ (((((deepmerge (deepmerge (Json.obj []) c3Fragment) c3Fragment).get?
            "/users").getD .undef).get? "get").getD .undef).get? "tags"
        = some (.arr [.str "foo", .str "foo"]) := by
  refine ⟨by decide, by decide⟩

/-- C3 (amended): the merge *is* idempotent on the program's own value
shapes once the concatenating array rule cannot fire: for every document
`d` and every mergeable fragment `f`, both with recursively
duplicate-free keys, all of whose arrays are empty, merging `f` into `d`
twice equals merging it once (URI and method keys overwrite rather than
duplicate). -/
theorem claim3_merge_idempotent_when_arrays_empty
    (d f : Json) (hd : wfKeys d = true) (hm : isMergeable f = true)
    (hw : wfKeys f = true) (he : emptyArrs f = true) :
    deepmerge (deepmerge d f) f = deepmerge d f :=
  deepmerge_idem_aux (jsize f) f (Nat.le_refl _) hm hw he d hd

/-- C3 (witness): the amended idempotence theorem applied to the concrete
document assembled by the C1 stream and an all-arrays-empty path-item
fragment. -/
theorem claim3_witness :
    wfKeys c3Fragment = true ∧ isMergeable c3EmptyFragment = true
    ∧ wfKeys c3EmptyFragment = true ∧ emptyArrs c3EmptyFragment = true
    ∧ deepmerge (deepmerge c3Fragment c3EmptyFragment) c3EmptyFragment
        = deepmerge c3Fragment c3EmptyFragment :=
  ⟨by decide, by decide, by decide, by decide,
   claim3_merge_idempotent_when_arrays_empty c3Fragment c3EmptyFragment
     (by decide) (by decide) (by decide) (by decide)⟩

/-- C4 (counterexample): the claimed declaration-order result
`anyOf: [{minimum: 5}, {minimum: 1}]` is *not* what the option grammar
produces for `minimum: 5` then `minimum: 1`. -/
theorem claim4_declared_order_refuted :
    (optionsReducer c4Description).bind constructOptions
      ≠ .ok (.obj [("anyOf",
          .arr [.obj [("minimum", .num 5)], .obj [("minimum", .num 1)]])]) := by
  decide

/-- C4 (amended): repeated declarations of the same scalar keyword with
no open composition promote to a top-level `anyOf` of single-key
objects in *reverse* declaration order — the accumulator prepends each
new value and the flattening pass keeps that order — so `minimum: 5`
then `minimum: 1` yields `anyOf: [{minimum: 1}, {minimum: 5}]`. -/
theorem claim4_repeated_keyword_reverse_order :
    (optionsReducer c4Description).bind constructOptions
      = .ok (.obj [("anyOf",
          .arr [.obj [("minimum", .num 1)], .obj [("minimum", .num 5)]])]) := by
  decide

/-- C5 (counterexample): `Date` is a non-primitive name-reference, yet
with an *empty* registry it compiles successfully to `{type: string}` —
the `typeConstructors` dispatch on the name bypasses the registry
check, so no `UnknownModel` failure occurs. -/
theorem claim5_date_bypasses_registry :
    constructPropertyType [] (.obj []) (.nameExpression "Date")
      = .ok (.obj [("type", .str "string")])
    ∧ constructPropertyType [] (.obj []) (.nameExpression "Date")
      ≠ .error (.unknownModel "Date") := by
  refine ⟨by decide, by decide⟩

/-- C5 (amended): for a non-primitive name-reference whose name is not a
`typeConstructors` key and whose first dot-segment is nonempty, against
a registry of well-shaped schemas, compilation splits the dotted name:
an unknown model fails with `UnknownModel`; a present, truthy second
segment that is not among the model's properties fails with
`UnknownModelProperty`; otherwise the result is exactly the `$ref`
object of the claimed form (hence with no sibling `type` field). -/
theorem claim5_name_reference_resolution
    (reg : List (String × Json)) (opts : Json) (name model : String)
    (restParts : List String)
    (hs : name ∉ simpleNameExpressions)
    (hc : name ∉ typeConstructorNames)
    (hsplit : jsSplit '.' name = model :: restParts)
    (hm : model ≠ "")
    (hwf : registryWf reg = true) :
    constructPropertyType reg opts (.nameExpression name)
      = match jsGet reg model with
        | none => .error (.unknownModel model)
        | some schema =>
          match restParts[0]? with
          | none => .ok (.obj [("$ref", .str ("#/components/schemas/" ++ model))])
          | some p =>
            if p = "" then
              .ok (.obj [("$ref", .str ("#/components/schemas/" ++ model))])
            else
              match (schema.get? "properties").bind (fun props => props.get? p) with
              | none => .error (.unknownModelProperty p model)
              | some _ => .ok (.obj [("$ref",
                  .str ("#/components/schemas/" ++ model ++ "/properties/" ++ p))])
      := by
  simp only [simpleNameExpressions, typeConstructorNames, List.mem_cons,
    List.mem_singleton, not_or] at hs hc
  obtain ⟨hc1, hc2, hc3, hc4, hc5, hc6, hc7, hc8, hc9, hc10, hc11⟩ := hc
  obtain ⟨hs1, hs2, hs3, hs4⟩ := hs
  have hstep : constructPropertyType reg opts (.nameExpression name)
      = resolveNameRef reg name := by
    simp [constructPropertyType, constructNameExpressionNoApps,
      simpleNameExpressions, hs1, hs2, hs3, hs4,
      hc1, hc2, hc3, hc4, hc5, hc6, hc7, hc8, hc9, hc10, hc11]
  rw [hstep]
  unfold resolveNameRef
  rw [hsplit]
  simp only [List.headD_cons, List.getElem?_cons_succ]
  cases hg : jsGet reg model with
  | none =>
    have hnd : jsHasDefined reg model = false := by
      simp [jsHasDefined, hg]
    simp [hm, hnd]
  | some schema =>
    have hsw : schemaWf schema = true := by
      have hmem := mem_of_lookup hg
      have := List.all_eq_true.mp hwf _ hmem
      simpa using this
    obtain ⟨props, hprops, hdef⟩ :
        ∃ props, schema.get? "properties" = some (.obj props)
          ∧ props.all (fun q => match q.2 with | Json.undef => false | _ => true)
            = true := by
      unfold schemaWf at hsw
      cases hp : schema.get? "properties" with
      | none => rw [hp] at hsw; simp at hsw
      | some v =>
        rw [hp] at hsw
        cases v with
        | obj ps => exact ⟨ps, rfl, hsw⟩
        | str s => simp at hsw
        | num q => simp at hsw
        | nan => simp at hsw
        | bool b => simp at hsw
        | null => simp at hsw
        | undef => simp at hsw
        | arr xs => simp at hsw
    have hschemaNotUndef : schema ≠ .undef := by
      intro hcontra
      rw [hcontra] at hprops
      simp [Json.get?] at hprops
    have hnd : jsHasDefined reg model = true := by
      unfold jsHasDefined
      rw [hg]
      cases schema with
      | undef => exact absurd rfl hschemaNotUndef
      | str s => rfl
      | num q => rfl
      | nan => rfl
      | bool b => rfl
      | null => rfl
      | arr xs => rfl
      | obj fs => rfl
    simp only [hnd, Bool.not_true, Bool.and_false, if_neg, Bool.false_eq_true,
      not_false_eq_true]
    cases hr : restParts[0]? with
    | none => simp
    | some p =>
      by_cases hp0 : p = ""
      · simp [hp0]
      · simp only [hp0, if_neg, if_false]
        rw [hprops]
        simp only [Option.bind]
        have hj : (Json.obj props).get? p = jsGet props p := rfl
        rw [hj]
        cases hq : jsGet props p with
        | none => simp
        | some u =>
          have hmem := mem_of_lookup hq
          have hu := List.all_eq_true.mp hdef _ hmem
          cases u with
          | undef => simp at hu
          | str s => rfl
          | num q => rfl
          | nan => rfl
          | bool b => rfl
          | null => rfl
          | arr xs => rfl
          | obj fs => rfl

/-- Witness for C5: the three outcomes at concrete inputs against the
one-model registry — unknown model, unknown property of a known model,
and a successful two-segment `$ref`. -/
theorem claim5_witness :
    constructPropertyType c5Registry (.obj []) (.nameExpression "Nope")
      = .error (.unknownModel "Nope")
    ∧ constructPropertyType c5Registry (.obj []) (.nameExpression "User.nope")
      = .error (.unknownModelProperty "nope" "User")
    ∧ constructPropertyType c5Registry (.obj []) (.nameExpression "User.id")
      = .ok (.obj [("$ref", .str "#/components/schemas/User/properties/id")]) := by
  refine ⟨?_, ?_, ?_⟩
  · have h := claim5_name_reference_resolution c5Registry (.obj []) "Nope" "Nope" []
      (by decide) (by decide) (by decide) (by decide) (by decide)
    simpa using h
  · have h := claim5_name_reference_resolution c5Registry (.obj []) "User.nope"
      "User" ["nope"] (by decide) (by decide) (by decide) (by decide) (by decide)
    simpa using h
  · have h := claim5_name_reference_resolution c5Registry (.obj []) "User.id"
      "User" ["id"] (by decide) (by decide) (by decide) (by decide) (by decide)
    simpa using h

/-- C6: per-stream error isolation.  The general half: whenever
`fileFormat` fails on a stream, the per-stream loop of
`generateSpecAndMount` produces exactly the document it would have
produced without that stream — previously merged `paths` are untouched
and the remaining streams are still processed (the loop is total, so the
run never aborts).  The concrete half: a `param` typed `Unknown.model`
makes `fileFormat` raise `UnknownModel`. -/
theorem claim6_stream_error_isolation :
    (∀ (reg : List (String × Json)) (D : Json) (pre post : List Comment)
       (s : Comment) (e : JsError), fileFormat reg s = .error e →
       processStreams reg D (pre ++ s :: post) = processStreams reg D (pre ++ post))
    ∧ fileFormat c6Registry c6BadStream = .error (.unknownModel "Unknown") := by
  constructor
  · intro reg D pre post s e he
    exact processStreams_skip he pre post D
  · decide

/-- Witness for C6: dropping the failing middle stream from a concrete
three-stream run leaves the processed paths unchanged. -/
theorem claim6_witness :
    processStreams c6Registry (.obj []) [c6GoodStream, c6BadStream, c6OtherStream]
      = processStreams c6Registry (.obj []) [c6GoodStream, c6OtherStream] :=
  claim6_stream_error_isolation.1 c6Registry (.obj []) [c6GoodStream]
    [c6OtherStream] c6BadStream (.unknownModel "Unknown") (by decide)

/-- C8: a union of a null-literal branch and exactly one other branch
compiles to the other branch's compiled schema with `nullable: true`
merged in (overwriting an existing `nullable` key in place, else
appended), in either branch order.  The hypothesis that the other branch
compiles to an *object* is what the claim's phrase "compiled schema"
denotes — a `StringLiteralType` branch compiles to a bare string, into
which nothing can be merged (the source would spread its characters). -/
theorem claim8_nullable_union
    (reg : List (String × Json)) (opts : Json) (t : TypeAst)
    (fs : List (String × Json))
    (hok : constructPropertyType reg opts t = .ok (.obj fs)) :
    constructPropertyType reg opts (.unionType [.nullLiteral, t])
      = .ok (.obj (jsSet fs "nullable" (.bool true)))
    ∧ constructPropertyType reg opts (.unionType [t, .nullLiteral])
      = .ok (.obj (jsSet fs "nullable" (.bool true))) := by
  have hnn : isNullLit t = false := by
    cases t with
    | nullLiteral => simp [constructPropertyType] at hok
    | _ => rfl
  have hfil1 : filterNonNull [.nullLiteral, t] = [t] := by
    cases t <;> simp_all [filterNonNull, isNullLit]
  have hfil2 : filterNonNull [t, .nullLiteral] = [t] := by
    cases t <;> simp_all [filterNonNull, isNullLit]
  have hue : unionElems reg opts [t] = .ok [.obj fs] := by
    cases t with
    | nullLiteral => simp [isNullLit] at hnn
    | _ => simp [unionElems, hok, Bind.bind, Except.bind, Pure.pure, Except.pure]
  have hue1 : unionElems reg opts [.nullLiteral, t] = .ok [.obj fs] := by
    simpa [unionElems] using hue
  have hue2 : unionElems reg opts [t, .nullLiteral] = .ok [.obj fs] := by
    cases t with
    | nullLiteral => simp [isNullLit] at hnn
    | _ => simp_all [unionElems, hok, Bind.bind, Except.bind, Pure.pure, Except.pure]
  constructor
  · simp [constructPropertyType, hfil1, hue1, isNullLit, spreadFields, Except.map]
  · simp [constructPropertyType, hfil2, hue2, isNullLit, hnn, spreadFields, Except.map]

/-- Witness for C8: the null-or-string union. -/
theorem claim8_witness :
    constructPropertyType [] (.obj [])
      (.unionType [.nullLiteral, .nameExpression "string"])
      = .ok (.obj [("type", .str "string"), ("nullable", .bool true)]) := by
  have h := (claim8_nullable_union [] (.obj []) (.nameExpression "string")
    [("type", .str "string")] (by decide)).1
  exact h

/-- C9: a primitive name-reference (`string`, `number`, `integer`,
`boolean`) with zero type arguments — bare, or under a
`TypeApplication` with an empty argument list — compiles to exactly
`{type: <name>}` with no other fields. -/
theorem claim9_primitive_zero_args
    (reg : List (String × Json)) (opts : Json) (name : String)
    (h : name ∈ simpleNameExpressions) :
    constructPropertyType reg opts (.nameExpression name)
      = .ok (.obj [("type", .str name)])
    ∧ constructPropertyType reg opts (.typeApplication (.nameExpression name) [])
      = .ok (.obj [("type", .str name)]) := by
  constructor
  · simp [constructPropertyType, constructNameExpressionNoApps, h]
  · simp [constructPropertyType, h, spreadFields, Except.map]

/-- Witness for C9 at `string`. -/
theorem claim9_witness :
    constructPropertyType [] (.obj []) (.nameExpression "string")
      = .ok (.obj [("type", .str "string")]) :=
  (claim9_primitive_zero_args [] (.obj []) "string" (by decide)).1

/-- C10: the required flag of `constructProperty` is exactly "the
type-AST node's kind is not `OptionalType`", and the dot-segments of the
parameter name beyond the first two (such as a trailing `.required`
suffix) have no effect on the result at all — neither on the flag nor on
the emitted field name. -/
theorem claim10_required_flag_and_suffix :
    (∀ (reg : List (String × Json)) (p : Param) (t : TypeAst) (out : PropertyOut),
       p.type = some t → constructProperty reg p = .ok out →
       out.required = !(t.kindName == "OptionalType"))
    ∧ (∀ (reg : List (String × Json)) (p : Param) (n2 : String),
       (jsSplit '.' p.name).take 2 = (jsSplit '.' n2).take 2 →
       constructProperty reg p = constructProperty reg { p with name := n2 }) := by
  constructor
  · intro reg p t out hty hok
    unfold constructProperty constructPropertyWith at hok
    rw [hty] at hok
    cases h1 : optionsReducer p.description with
    | error e => rw [h1] at hok; simp [Bind.bind, Except.bind] at hok
    | ok store =>
      rw [h1] at hok
      simp only [Bind.bind, Except.bind] at hok
      cases h2 : constructOptions store with
      | error e => rw [h2] at hok; simp at hok
      | ok options =>
        rw [h2] at hok
        split at hok
        · simp at hok
        · rename_i v hv
          injection hv with hv
          subst hv
          split at hok
          · simp at hok
          · split at hok
            · simp at hok
            · rename_i w hw
              simp only [Except.ok.injEq] at hok
              rw [← hok]
  · intro reg p n2 hts
    obtain ⟨h0, h1⟩ := take2_components hts
    simp only [constructProperty, h0, h1]

/-- Witness for C10: the trailing `.required` suffix of
`query.name.required` changes nothing, and the flag at the concrete
non-optional input is the kind test. -/
theorem claim10_witness :
    constructProperty [] c10Param
      = constructProperty [] { c10Param with name := "query.name" }
    ∧ c10Out.required = !((TypeAst.nameExpression "string").kindName == "OptionalType") :=
  ⟨claim10_required_flag_and_suffix.2 [] c10Param "query.name" (by decide),
   claim10_required_flag_and_suffix.1 [] c10Param (.nameExpression "string")
     c10Out rfl (by decide)⟩

end Swagger
